import Mathlib

/-!
Shallow embedding of the market simulation, pricing and trading code of
`app/securities.py` (repository `invisible-hand`), together with proofs about
the claims of the specification.

Modelling conventions:
* Python floats are embedded as exact rationals `ℚ`.  The transcendental
  library functions used by the source (`math.exp`, `math.log`, `math.sqrt`,
  `math.erf`) are abstracted as a record `MathPrims` of functions `ℚ → ℚ`;
  every theorem that does not depend on their values is proved for all
  instantiations, and concrete evaluations instantiate them with rational
  approximations at the relevant points.
* Timestamps (`datetime`) are embedded as rational numbers of seconds;
  `datetime.utcnow()` becomes an explicit `now` argument.
* The database session is embedded as an explicit record `MarketState` of the
  tables the engine touches; `db.session.add` of a history row becomes a list
  append, and updates of persistent rows become functional updates.
* Python `raise ValueError(msg)` becomes `Except.error msg`.  In every trading
  function of the source, all raises occur before any mutation of holdings or
  securities, so an error result leaves the caller's state untouched, exactly
  as in the embedding.
-/

namespace Securities

/-- `MIN_PRICE = 0.01` from `app/securities.py`. -/
def MIN_PRICE : ℚ := 1/100

/-- `SECONDS_IN_YEAR = 365 * 24 * 60 * 60` from `app/securities.py`. -/
def SECONDS_IN_YEAR : ℚ := 365 * 24 * 60 * 60

/-- Abstraction of the transcendental functions of Python's `math` module used
by `app/securities.py` (`exp`, `log`, `sqrt`, `erf`). -/
structure MathPrims where
  mexp : ℚ → ℚ
  mlog : ℚ → ℚ
  msqrt : ℚ → ℚ
  merf : ℚ → ℚ

/-- `OptionType` enum from `app/models.py`. -/
inductive OptionType where
  | call
  | put
deriving DecidableEq

/-- `SecurityConfig` dataclass from `app/securities.py`. -/
structure SecurityConfig where
  symbol : String
  name : String
  description : String
  initial_price : ℚ
  drift : ℚ
  volatility : ℚ
  mean_reversion : ℚ
  fundamental_value : ℚ
  liquidity : ℚ
  impact : ℚ
  options_tenors : List ℤ
  options_strike_multipliers : List ℚ
  futures_tenors : List ℤ
deriving DecidableEq

/-- `Security` ORM model from `app/models.py` (columns the engine touches). -/
structure Security where
  symbol : String
  name : String
  description : String
  last_price : ℚ
  drift : ℚ
  volatility : ℚ
  mean_reversion : ℚ
  fundamental_value : ℚ
  liquidity : ℚ
  impact : ℚ
  updated_at : ℚ
deriving DecidableEq

/-- `SecurityPriceHistory` ORM model from `app/models.py`. -/
structure SecurityPriceHistory where
  security_symbol : String
  price : ℚ
  timestamp : ℚ
deriving DecidableEq

/-- `OptionListing` ORM model from `app/models.py`. -/
structure OptionListing where
  id : ℕ
  security_symbol : String
  option_type : OptionType
  strike : ℚ
  expiration : ℚ
  created_at : ℚ
deriving DecidableEq

/-- `FutureListing` ORM model from `app/models.py`. -/
structure FutureListing where
  id : ℕ
  security_symbol : String
  delivery_date : ℚ
  created_at : ℚ
deriving DecidableEq

/-- `SecurityHolding` ORM model from `app/models.py`
(`quantity` and `average_price` default to 0). -/
structure SecurityHolding where
  user_id : ℕ
  security_symbol : String
  quantity : ℚ
  average_price : ℚ
  updated_at : ℚ
deriving DecidableEq

/-- `OptionHolding` ORM model from `app/models.py` (integer quantity). -/
structure OptionHolding where
  user_id : ℕ
  listing_id : ℕ
  quantity : ℤ
  average_premium : ℚ
  updated_at : ℚ
deriving DecidableEq

/-- `FutureHolding` ORM model from `app/models.py` (integer signed quantity). -/
structure FutureHolding where
  user_id : ℕ
  listing_id : ℕ
  quantity : ℤ
  entry_price : ℚ
  updated_at : ℚ
deriving DecidableEq

/-- The fields of the `User` model read by the trading functions. -/
structure User where
  id : ℕ
  balance : ℚ
deriving DecidableEq

/-- `TradeResult` dataclass from `app/securities.py`.  The human-readable
`description` string (built with float formatting) is not modelled. -/
structure TradeResult where
  symbol : String
  quantity : ℚ
  price : ℚ
  notional : ℚ
  action : String
  cash_delta : ℚ
deriving DecidableEq

/-- The database tables read or written by the engine, as one record. -/
structure MarketState where
  securities : List Security
  history : List SecurityPriceHistory
  option_listings : List OptionListing
  future_listings : List FutureListing
  security_holdings : List SecurityHolding
  option_holdings : List OptionHolding
  future_holdings : List FutureHolding
deriving DecidableEq

/-- The `MarketSimulator` instance state relevant to the pure logic:
`interval`, `risk_free_rate` and the `configs` map (as an association list). -/
structure MarketSimulator where
  interval : ℚ
  risk_free_rate : ℚ
  configs : List (String × SecurityConfig)
deriving DecidableEq

/-- `Security.query.get(symbol)`. -/
def findSecurity (l : List Security) (symbol : String) : Option Security :=
  l.find? (fun s => s.symbol == symbol)

/-- `Security.query.get(symbol)` against a full state. -/
def getSecurity (st : MarketState) (symbol : String) : Option Security :=
  findSecurity st.securities symbol

/-- `self.configs.get(symbol)`. -/
def getConfig (sim : MarketSimulator) (symbol : String) : Option SecurityConfig :=
  (sim.configs.find? (fun p => p.1 == symbol)).map Prod.snd

/-- In-place mutation `security.last_price = p; security.updated_at = t` of the
row keyed by `symbol`. -/
def updatePriceList (l : List Security) (symbol : String) (price now : ℚ) : List Security :=
  l.map (fun s => if s.symbol == symbol then
    { s with last_price := price, updated_at := now } else s)

/-- Price mutation lifted to the whole state. -/
def setSecurityPrice (st : MarketState) (symbol : String) (price now : ℚ) : MarketState :=
  { st with securities := updatePriceList st.securities symbol price now }

/-- The new price computed for one security inside `MarketSimulator.step`
(`app/securities.py` lines 183-190), as a function of the drawn shock. -/
def stepNewPrice (P : MathPrims) (interval : ℚ) (config : SecurityConfig)
    (last_price shock : ℚ) : ℚ :=
  let price := max MIN_PRICE last_price
  let dt := max interval 1 / SECONDS_IN_YEAR
  let mean_reversion_term :=
    config.mean_reversion * (config.fundamental_value - price) / max price (1/1000000)
  let drift := config.drift + mean_reversion_term
  let sigma := max 0 config.volatility
  let exponent := (drift - 1/2 * sigma * sigma) * dt + sigma * P.msqrt dt * shock
  max MIN_PRICE (price * P.mexp exponent)

/-- One iteration of the `for symbol, config in self.configs.items()` loop of
`MarketSimulator.step`: a security with no row is skipped; otherwise its price
is replaced and a history row is appended. -/
def stepOne (P : MathPrims) (interval : ℚ) (shocks : String → ℚ) (now : ℚ)
    (st : MarketState) (entry : String × SecurityConfig) : MarketState :=
  match getSecurity st entry.1 with
  | none => st
  | some security =>
      let new_price := stepNewPrice P interval entry.2 security.last_price (shocks entry.1)
      let st' := setSecurityPrice st entry.1 new_price now
      { st' with history := st'.history ++ [⟨entry.1, new_price, now⟩] }

/-- `MarketSimulator.step`: one simulation tick over all configured securities.
The random draws `random.gauss(0.0, 1.0)` are abstracted as a shock assignment
`shocks : String → ℚ`. -/
def MarketSimulator.step (sim : MarketSimulator) (P : MathPrims) (shocks : String → ℚ)
    (now : ℚ) (st : MarketState) : MarketState :=
  sim.configs.foldl (stepOne P sim.interval shocks now) st

/-- `MarketSimulator.apply_order_impact` (`app/securities.py` lines 225-251):
early return on zero quantity, missing config, or missing security row;
otherwise multiplicative price nudge clamped to `[0.5, 1.5]`, floored at
`MIN_PRICE`, with a history row appended. -/
def MarketSimulator.apply_order_impact (sim : MarketSimulator) (st : MarketState)
    (symbol : String) (signed_quantity : ℚ) (now : ℚ) : MarketState :=
  if signed_quantity = 0 then st
  else
    match getConfig sim symbol with
    | none => st
    | some config =>
        match getSecurity st symbol with
        | none => st
        | some security =>
            let adjustment :=
              max (1/2) (min (3/2)
                (1 + config.impact * signed_quantity / max config.liquidity (1/1000000)))
            let new_price := max MIN_PRICE (security.last_price * adjustment)
            let st' := setSecurityPrice st symbol new_price now
            { st' with history := st'.history ++ [⟨symbol, new_price, now⟩] }

/-- The repeated intrinsic-value expression of the source
(`max(0.0, spot - strike)` for calls, `max(0.0, strike - spot)` for puts),
appearing both in `price_option` and in `_black_scholes`. -/
def intrinsicValue (option_type : OptionType) (spot strike : ℚ) : ℚ :=
  match option_type with
  | .call => max 0 (spot - strike)
  | .put => max 0 (strike - spot)

/-- `_norm_cdf` from `app/securities.py`: `0.5 * (1 + erf(x / sqrt 2))`. -/
def norm_cdf (P : MathPrims) (x : ℚ) : ℚ :=
  1/2 * (1 + P.merf (x / P.msqrt 2))

/-- `_black_scholes` from `app/securities.py` (lines 422-433). -/
def black_scholes (P : MathPrims) (spot strike time_to_expiry rate sigma : ℚ)
    (option_type : OptionType) : ℚ :=
  if spot ≤ 0 ∨ strike ≤ 0 ∨ time_to_expiry ≤ 0 ∨ sigma ≤ 0 then
    intrinsicValue option_type spot strike
  else
    let sqrt_t := P.msqrt time_to_expiry
    let d1 := (P.mlog (spot / strike) + (rate + 1/2 * sigma * sigma) * time_to_expiry)
      / (sigma * sqrt_t)
    let d2 := d1 - sigma * sqrt_t
    match option_type with
    | .call => spot * norm_cdf P d1
        - strike * P.mexp (-(rate * time_to_expiry)) * norm_cdf P d2
    | .put => strike * P.mexp (-(rate * time_to_expiry)) * norm_cdf P (-d2)
        - spot * norm_cdf P (-d1)

/-- `MarketSimulator.price_option` (`app/securities.py` lines 199-212).
Note that for `time_to_expiry > 0` the volatility handed to `_black_scholes`
is `max(MIN_PRICE, security.volatility)`. -/
def MarketSimulator.price_option (sim : MarketSimulator) (P : MathPrims)
    (st : MarketState) (listing : OptionListing) (now : ℚ) : ℚ :=
  match getSecurity st listing.security_symbol with
  | none => 0
  | some security =>
      let spot := max MIN_PRICE security.last_price
      let strike := listing.strike
      let time_to_expiry := max 0 (listing.expiration - now) / SECONDS_IN_YEAR
      if time_to_expiry ≤ 0 then intrinsicValue listing.option_type spot strike
      else
        let sigma := max MIN_PRICE security.volatility
        black_scholes P spot strike time_to_expiry sim.risk_free_rate sigma
          listing.option_type

/-- `MarketSimulator.price_future` (`app/securities.py` lines 214-223). -/
def MarketSimulator.price_future (sim : MarketSimulator) (P : MathPrims)
    (st : MarketState) (listing : FutureListing) (now : ℚ) : ℚ :=
  match getSecurity st listing.security_symbol with
  | none => 0
  | some security =>
      let spot := max MIN_PRICE security.last_price
      let time_to_delivery := max 0 ((listing.delivery_date - now) / SECONDS_IN_YEAR)
      spot * P.mexp (sim.risk_free_rate * time_to_delivery)

/-- `.replace(second=0, microsecond=0)` on a timestamp measured in seconds:
truncation to the whole minute. -/
def floorMinute (t : ℚ) : ℚ := ((⌊t / 60⌋ : ℤ) : ℚ) * 60

/-- Python's `round(x, 2)`: round to 2 decimal places, ties to even. -/
def pyRound2 (x : ℚ) : ℚ :=
  let y := x * 100
  let f : ℤ := ⌊y⌋
  let r := y - (f : ℚ)
  if r < 1/2 then (f : ℚ) / 100
  else if 1/2 < r then ((f : ℚ) + 1) / 100
  else if f % 2 = 0 then (f : ℚ) / 100 else ((f : ℚ) + 1) / 100

/-- The identifying tuple of an option listing used by the `filter_by`
existence check of `_ensure_option_listings`. -/
structure OptionKey where
  option_type : OptionType
  strike : ℚ
  expiration : ℚ
deriving DecidableEq

/-- The `(tenor, multiplier, kind)` triple loop of `_ensure_option_listings`
flattened to the list of listing keys it visits, in visit order. -/
def optionKeys (config : SecurityConfig) (base_price now : ℚ) : List OptionKey :=
  config.options_tenors.flatMap (fun tenor =>
    let expiration := floorMinute (now + (tenor : ℚ) * 86400)
    config.options_strike_multipliers.flatMap (fun multiplier =>
      let strike := pyRound2 (base_price * multiplier)
      [⟨OptionType.call, strike, expiration⟩, ⟨OptionType.put, strike, expiration⟩]))

/-- The `filter_by` predicate of `_ensure_option_listings`: exact match on
(symbol, option_type, strike, expiration). -/
def optionKeyMatches (symbol : String) (k : OptionKey) (o : OptionListing) : Bool :=
  decide (o.security_symbol = symbol ∧ o.option_type = k.option_type
    ∧ o.strike = k.strike ∧ o.expiration = k.expiration)

/-- `OptionListing.query.filter_by(security_symbol=..., option_type=...,
strike=..., expiration=...).first() is not None`. -/
def optionListingExists (l : List OptionListing) (symbol : String) (k : OptionKey) : Bool :=
  l.any (optionKeyMatches symbol k)

/-- The body of the inner loop of `_ensure_option_listings`: create the listing
if no listing with the exact key exists (the pending session is visible to the
query via autoflush). -/
def ensureOptionStep (symbol : String) (now : ℚ) (p : List OptionListing × ℕ)
    (k : OptionKey) : List OptionListing × ℕ :=
  if optionListingExists p.1 symbol k then p
  else (p.1 ++ [⟨p.2, symbol, k.option_type, k.strike, k.expiration, now⟩], p.2 + 1)

/-- `MarketSimulator._ensure_option_listings` (`app/securities.py` lines
254-275).  `next_id` models the autoincrement primary key counter. -/
def ensure_option_listings (symbol : String) (config : SecurityConfig)
    (last_price : ℚ) (now : ℚ) (l : List OptionListing) (next_id : ℕ) :
    List OptionListing × ℕ :=
  let base_price := max MIN_PRICE (if last_price = 0 then config.initial_price else last_price)
  (optionKeys config base_price now).foldl (ensureOptionStep symbol now) (l, next_id)

/-- The delivery dates visited by `_ensure_future_listings`, in visit order. -/
def futureKeys (config : SecurityConfig) (now : ℚ) : List ℚ :=
  config.futures_tenors.map (fun tenor => floorMinute (now + (tenor : ℚ) * 86400))

/-- The `filter_by` predicate of `_ensure_future_listings`. -/
def futureKeyMatches (symbol : String) (delivery : ℚ) (f : FutureListing) : Bool :=
  decide (f.security_symbol = symbol ∧ f.delivery_date = delivery)

/-- `FutureListing.query.filter_by(security_symbol=..., delivery_date=...)
.first() is not None`. -/
def futureListingExists (l : List FutureListing) (symbol : String) (delivery : ℚ) : Bool :=
  l.any (futureKeyMatches symbol delivery)

/-- The body of the loop of `_ensure_future_listings`. -/
def ensureFutureStep (symbol : String) (now : ℚ) (p : List FutureListing × ℕ)
    (delivery : ℚ) : List FutureListing × ℕ :=
  if futureListingExists p.1 symbol delivery then p
  else (p.1 ++ [⟨p.2, symbol, delivery, now⟩], p.2 + 1)

/-- `MarketSimulator._ensure_future_listings` (`app/securities.py` lines
277-286). -/
def ensure_future_listings (symbol : String) (config : SecurityConfig) (now : ℚ)
    (l : List FutureListing) (next_id : ℕ) : List FutureListing × ℕ :=
  (futureKeys config now).foldl (ensureFutureStep symbol now) (l, next_id)

/-- `SecurityHolding.query.filter_by(user_id=..., security_symbol=...).first()`. -/
def findSecurityHolding (l : List SecurityHolding) (uid : ℕ) (symbol : String) :
    Option SecurityHolding :=
  l.find? (fun h => decide (h.user_id = uid ∧ h.security_symbol = symbol))

/-- `db.session.add(holding)`: replace the keyed row if present, else insert. -/
def upsertSecurityHolding (l : List SecurityHolding) (h : SecurityHolding) :
    List SecurityHolding :=
  if l.any (fun x => decide (x.user_id = h.user_id ∧ x.security_symbol = h.security_symbol)) then
    l.map (fun x =>
      if decide (x.user_id = h.user_id ∧ x.security_symbol = h.security_symbol) then h else x)
  else l ++ [h]

/-- `OptionListing.query.get(listing_id)`. -/
def findOptionListing (l : List OptionListing) (listing_id : ℕ) : Option OptionListing :=
  l.find? (fun o => o.id == listing_id)

/-- `FutureListing.query.get(listing_id)`. -/
def findFutureListing (l : List FutureListing) (listing_id : ℕ) : Option FutureListing :=
  l.find? (fun f => f.id == listing_id)

/-- `OptionHolding.query.filter_by(user_id=..., listing_id=...).first()`. -/
def findOptionHolding (l : List OptionHolding) (uid listing_id : ℕ) : Option OptionHolding :=
  l.find? (fun h => decide (h.user_id = uid ∧ h.listing_id = listing_id))

/-- `db.session.add(holding)` for option holdings. -/
def upsertOptionHolding (l : List OptionHolding) (h : OptionHolding) : List OptionHolding :=
  if l.any (fun x => decide (x.user_id = h.user_id ∧ x.listing_id = h.listing_id)) then
    l.map (fun x => if decide (x.user_id = h.user_id ∧ x.listing_id = h.listing_id) then h else x)
  else l ++ [h]

/-- `FutureHolding.query.filter_by(user_id=..., listing_id=...).first()`. -/
def findFutureHolding (l : List FutureHolding) (uid listing_id : ℕ) : Option FutureHolding :=
  l.find? (fun h => decide (h.user_id = uid ∧ h.listing_id = listing_id))

/-- `db.session.add(holding)` for future holdings. -/
def upsertFutureHolding (l : List FutureHolding) (h : FutureHolding) : List FutureHolding :=
  if l.any (fun x => decide (x.user_id = h.user_id ∧ x.listing_id = h.listing_id)) then
    l.map (fun x => if decide (x.user_id = h.user_id ∧ x.listing_id = h.listing_id) then h else x)
  else l ++ [h]

/-- `execute_equity_trade` (`app/securities.py` lines 292-331).  Every raise
of the source occurs before any state mutation, so the error results of this
embedding leave the state with the caller unchanged. -/
def execute_equity_trade (sim : MarketSimulator) (st : MarketState) (user : User)
    (symbol : String) (quantity : ℚ) (now : ℚ) :
    Except String (TradeResult × MarketState) :=
  if quantity = 0 then .error "Quantity must be non-zero."
  else
    match getSecurity st symbol with
    | none => .error "Security not found."
    | some security =>
      let price := max MIN_PRICE security.last_price
      let notional := price * |quantity|
      let holding? := findSecurityHolding st.security_holdings user.id symbol
      let updated : Except String SecurityHolding :=
        if 0 < quantity then
          if user.balance < notional then .error "Insufficient balance to buy."
          else
            let holding := holding?.getD ⟨user.id, symbol, 0, 0, now⟩
            let new_qty := holding.quantity + quantity
            let total_cost := holding.quantity * holding.average_price + notional
            .ok { holding with
                  quantity := new_qty,
                  average_price := if new_qty ≠ 0 then total_cost / new_qty else 0,
                  updated_at := now }
        else
          match holding? with
          | none => .error "Not enough shares to sell."
          | some holding =>
            if holding.quantity < |quantity| then .error "Not enough shares to sell."
            else
              let new_qty := holding.quantity + quantity
              if new_qty ≤ 0 then
                .ok { holding with quantity := 0, average_price := 0, updated_at := now }
              else .ok { holding with quantity := new_qty, updated_at := now }
      match updated with
      | .error e => .error e
      | .ok h =>
        let st1 := { st with security_holdings := upsertSecurityHolding st.security_holdings h }
        let liquidity_scale := max security.liquidity 1
        let st2 := sim.apply_order_impact st1 symbol (quantity / liquidity_scale) now
        .ok ({ symbol := symbol,
               quantity := quantity,
               price := price,
               notional := notional,
               action := if 0 < quantity then "buy" else "sell",
               cash_delta := if 0 < quantity then -notional else notional }, st2)

/-- `execute_option_trade` (`app/securities.py` lines 334-378). -/
def execute_option_trade (sim : MarketSimulator) (P : MathPrims) (st : MarketState)
    (user : User) (listing_id : ℕ) (quantity : ℤ) (now : ℚ) :
    Except String (TradeResult × MarketState) :=
  if quantity = 0 then .error "Quantity must be non-zero."
  else
    match findOptionListing st.option_listings listing_id with
    | none => .error "Option listing not found."
    | some listing =>
      let premium := sim.price_option P st listing now
      let notional := premium * ((|quantity| : ℤ) : ℚ)
      let holding? := findOptionHolding st.option_holdings user.id listing_id
      let updated : Except String OptionHolding :=
        if 0 < quantity then
          if user.balance < notional then .error "Insufficient balance to buy option."
          else
            let holding := holding?.getD ⟨user.id, listing_id, 0, 0, now⟩
            let new_qty := holding.quantity + quantity
            let total_premium := (holding.quantity : ℚ) * holding.average_premium + notional
            .ok { holding with
                  quantity := new_qty,
                  average_premium := if new_qty ≠ 0 then total_premium / (new_qty : ℚ) else 0,
                  updated_at := now }
        else
          match holding? with
          | none => .error "Not enough contracts to sell."
          | some holding =>
            if holding.quantity < |quantity| then .error "Not enough contracts to sell."
            else
              let new_qty := holding.quantity + quantity
              if new_qty ≤ 0 then
                .ok { holding with quantity := 0, average_premium := 0, updated_at := now }
              else .ok { holding with quantity := new_qty, updated_at := now }
      match updated with
      | .error e => .error e
      | .ok h =>
        let st1 := { st with option_holdings := upsertOptionHolding st.option_holdings h }
        let option_delta_sign : ℤ := if listing.option_type = OptionType.call then 1 else -1
        let signed_pressure := option_delta_sign * quantity
        let st2 := sim.apply_order_impact st1 listing.security_symbol
          ((signed_pressure : ℚ) * (5/100)) now
        .ok ({ symbol := listing.security_symbol,
               quantity := (quantity : ℚ),
               price := premium,
               notional := notional,
               action := if 0 < quantity then "buy" else "sell",
               cash_delta := if 0 < quantity then -notional else notional }, st2)

/-- `execute_future_trade` (`app/securities.py` lines 381-416): margin-based,
charges only the margin delta; `entry_price` is set to the latest forward
price (or 0 when flat); shorts are allowed. -/
def execute_future_trade (sim : MarketSimulator) (P : MathPrims) (st : MarketState)
    (user : User) (listing_id : ℕ) (quantity : ℤ) (now : ℚ) :
    Except String (TradeResult × MarketState) :=
  if quantity = 0 then .error "Quantity must be non-zero."
  else
    match findFutureListing st.future_listings listing_id with
    | none => .error "Future listing not found."
    | some listing =>
      let forward_price := sim.price_future P st listing now
      let holding? := findFutureHolding st.future_holdings user.id listing_id
      let previous_qty : ℤ := (holding?.map FutureHolding.quantity).getD 0
      let new_qty := previous_qty + quantity
      let prev_margin := forward_price * ((|previous_qty| : ℤ) : ℚ) * (1/10)
      let new_margin := forward_price * ((|new_qty| : ℤ) : ℚ) * (1/10)
      let margin_delta := new_margin - prev_margin
      if 0 < margin_delta ∧ user.balance < margin_delta then
        .error "Insufficient balance for margin."
      else
        let holding := holding?.getD ⟨user.id, listing_id, 0, 0, now⟩
        let h := { holding with
                   quantity := new_qty,
                   entry_price := if new_qty ≠ 0 then forward_price else 0,
                   updated_at := now }
        let st1 := { st with future_holdings := upsertFutureHolding st.future_holdings h }
        let st2 := sim.apply_order_impact st1 listing.security_symbol
          ((quantity : ℚ) * (1/10)) now
        .ok ({ symbol := listing.security_symbol,
               quantity := (quantity : ℚ),
               price := forward_price,
               notional := |margin_delta|,
               action := if 0 < new_qty then "long" else if new_qty < 0 then "short" else "flat",
               cash_delta := -margin_delta }, st2)

/-- Observable events of the two `MarketSimulator` methods that mutate prices,
in program order: lock operations on `self._lock`, Flask app-context
operations, price writes, history-row inserts, and session commit/flush. -/
inductive MarketEvent where
  | lock_acquire
  | lock_release
  | context_push
  | context_pop
  | price_write (symbol : String) (price : ℚ)
  | history_append (symbol : String) (price : ℚ)
  | session_commit
  | session_flush
deriving DecidableEq

/-- Events of the per-security loop body of `MarketSimulator.step`, threading
the state exactly as `step` does. -/
def stepBodyEvents (P : MathPrims) (interval : ℚ) (shocks : String → ℚ) (now : ℚ) :
    List (String × SecurityConfig) → MarketState → List MarketEvent
  | [], _ => []
  | entry :: rest, st =>
    (match getSecurity st entry.1 with
     | none => []
     | some security =>
        let p := stepNewPrice P interval entry.2 security.last_price (shocks entry.1)
        [.price_write entry.1 p, .history_append entry.1 p])
    ++ stepBodyEvents P interval shocks now rest (stepOne P interval shocks now st entry)

/-- Event trace of `MarketSimulator.step`: the whole loop and the commit run
inside `with self._lock:`. -/
def stepEvents (sim : MarketSimulator) (P : MathPrims) (shocks : String → ℚ)
    (now : ℚ) (st : MarketState) : List MarketEvent :=
  [.lock_acquire] ++ stepBodyEvents P sim.interval shocks now sim.configs st
    ++ [.session_commit, .lock_release]

/-- Event trace of `MarketSimulator.apply_order_impact`.  The source acquires
no lock: the only bracketing around the read-modify-write is the transient app
context (`ctx.push()` / `ctx.pop()`) used when `has_app_context()` is false
(`ctx_active` models `has_app_context()` at entry). -/
def applyOrderImpactEvents (sim : MarketSimulator) (st : MarketState) (symbol : String)
    (signed_quantity : ℚ) (ctx_active : Bool) : List MarketEvent :=
  if signed_quantity = 0 then []
  else
    match getConfig sim symbol with
    | none => []
    | some config =>
      let ctx_enter : List MarketEvent := if ctx_active then [] else [.context_push]
      let ctx_exit : List MarketEvent := if ctx_active then [] else [.context_pop]
      match getSecurity st symbol with
      | none => ctx_enter ++ ctx_exit
      | some security =>
        let adjustment :=
          max (1/2) (min (3/2)
            (1 + config.impact * signed_quantity / max config.liquidity (1/1000000)))
        let new_price := max MIN_PRICE (security.last_price * adjustment)
        ctx_enter ++ [.price_write symbol new_price, .history_append symbol new_price,
          .session_flush] ++ ctx_exit

/-- Sequencing of `execute_equity_trade` calls with the state threaded through,
collecting the returned `TradeResult`s.  (The caller's cash settlement is out
of scope: the source never mutates `user.balance` itself.) -/
def runEquityTrades (sim : MarketSimulator) (user : User) (symbol : String) (now : ℚ) :
    List ℚ → MarketState → Except String (MarketState × List TradeResult)
  | [], st => .ok (st, [])
  | q :: qs, st =>
    match execute_equity_trade sim st user symbol q now with
    | .error e => .error e
    | .ok (r, st') =>
      match runEquityTrades sim user symbol now qs st' with
      | .error e => .error e
      | .ok (st'', rs) => .ok (st'', r :: rs)

/-- Sequencing of `execute_option_trade` calls on one listing. -/
def runOptionTrades (sim : MarketSimulator) (P : MathPrims) (user : User)
    (listing_id : ℕ) (now : ℚ) :
    List ℤ → MarketState → Except String (MarketState × List TradeResult)
  | [], st => .ok (st, [])
  | q :: qs, st =>
    match execute_option_trade sim P st user listing_id q now with
    | .error e => .error e
    | .ok (r, st') =>
      match runOptionTrades sim P user listing_id now qs st' with
      | .error e => .error e
      | .ok (st'', rs) => .ok (st'', r :: rs)

/-- Sequencing of `execute_future_trade` calls on one listing. -/
def runFutureTrades (sim : MarketSimulator) (P : MathPrims) (user : User)
    (listing_id : ℕ) (now : ℚ) :
    List ℤ → MarketState → Except String (MarketState × List TradeResult)
  | [], st => .ok (st, [])
  | q :: qs, st =>
    match execute_future_trade sim P st user listing_id q now with
    | .error e => .error e
    | .ok (r, st') =>
      match runFutureTrades sim P user listing_id now qs st' with
      | .error e => .error e
      | .ok (st'', rs) => .ok (st'', r :: rs)

/-- A concrete configuration used for evaluations (one symbol, `"ARC"`). -/
def arcConfig : SecurityConfig :=
  { symbol := "ARC", name := "Arcade", description := "",
    initial_price := 100, drift := 0, volatility := 1/5, mean_reversion := 0,
    fundamental_value := 100, liquidity := 1, impact := 1,
    options_tenors := [7, 30], options_strike_multipliers := [9/10, 1, 11/10],
    futures_tenors := [30] }

/-- A concrete `Security` row for `"ARC"` at price 100. -/
def arcSecurity : Security :=
  { symbol := "ARC", name := "Arcade", description := "",
    last_price := 100, drift := 0, volatility := 1/5, mean_reversion := 0,
    fundamental_value := 100, liquidity := 1, impact := 1, updated_at := 0 }

/-- A concrete simulator with the single `"ARC"` config. -/
def arcSim : MarketSimulator :=
  { interval := 5, risk_free_rate := 1/100, configs := [("ARC", arcConfig)] }

/-- A call listing on `"ARC"` with strike 100, already expired at `now = 0`. -/
def arcCallExpired : OptionListing :=
  { id := 1, security_symbol := "ARC", option_type := .call,
    strike := 100, expiration := 0, created_at := 0 }

/-- A call listing on `"ARC"` with strike 100 expiring one year after 0. -/
def arcCallOneYear : OptionListing :=
  { id := 2, security_symbol := "ARC", option_type := .call,
    strike := 100, expiration := SECONDS_IN_YEAR, created_at := 0 }

/-- A future listing on `"ARC"` deliverable at `now = 0`. -/
def arcFutureNow : FutureListing :=
  { id := 1, security_symbol := "ARC", delivery_date := 0, created_at := 0 }

/-- A concrete state: the `"ARC"` security plus the three listings, no
holdings, no history. -/
def arcState : MarketState :=
  { securities := [arcSecurity], history := [],
    option_listings := [arcCallExpired, arcCallOneYear],
    future_listings := [arcFutureNow],
    security_holdings := [], option_holdings := [], future_holdings := [] }

/-- Math primitives for concrete evaluations in which every transcendental
call returns 1 (exact for `exp 0` and `sqrt 1`, the only uses that matter in
the evaluations below that use it). -/
def unitPrims : MathPrims :=
  { mexp := fun _ => 1, mlog := fun _ => 1, msqrt := fun _ => 1, merf := fun _ => 1 }

theorem findSecurity_updatePriceList (l : List Security) (symbol s : String) (p t : ℚ) :
    findSecurity (updatePriceList l symbol p t) s =
      (findSecurity l s).map (fun sec =>
        if sec.symbol == symbol then { sec with last_price := p, updated_at := t }
        else sec) := by
  unfold findSecurity updatePriceList
  rw [List.find?_map]
  have hpred : ((fun x : Security => x.symbol == s) ∘ (fun x : Security =>
      if x.symbol == symbol then { x with last_price := p, updated_at := t } else x)) =
      (fun x : Security => x.symbol == s) := by
    funext x
    simp only [Function.comp_apply]
    split <;> rfl
  rw [hpred]

theorem getSecurity_setSecurityPrice (st : MarketState) (symbol s : String) (p t : ℚ) :
    getSecurity (setSecurityPrice st symbol p t) s =
      (getSecurity st s).map (fun sec =>
        if sec.symbol == symbol then { sec with last_price := p, updated_at := t }
        else sec) :=
  findSecurity_updatePriceList st.securities symbol s p t

theorem MIN_PRICE_le_stepNewPrice (P : MathPrims) (interval : ℚ)
    (config : SecurityConfig) (last_price shock : ℚ) :
    MIN_PRICE ≤ stepNewPrice P interval config last_price shock :=
  le_max_left _ _

theorem getSecurity_stepOne (P : MathPrims) (interval : ℚ) (shocks : String → ℚ)
    (now : ℚ) (st : MarketState) (entry : String × SecurityConfig) (s : String) :
    (getSecurity st entry.1 = none ∧
      getSecurity (stepOne P interval shocks now st entry) s = getSecurity st s) ∨
    ∃ sec0, getSecurity st entry.1 = some sec0 ∧
      getSecurity (stepOne P interval shocks now st entry) s =
        (getSecurity st s).map (fun sec =>
          if sec.symbol == entry.1 then
            { sec with
              last_price := stepNewPrice P interval entry.2 sec0.last_price (shocks entry.1),
              updated_at := now }
          else sec) := by
  cases hm : getSecurity st entry.1 with
  | none =>
    left
    refine ⟨rfl, ?_⟩
    have hres : stepOne P interval shocks now st entry = st := by
      unfold stepOne
      rw [hm]
    rw [hres]

  | some sec0 =>
    right
    refine ⟨sec0, rfl, ?_⟩
    have hres : getSecurity (stepOne P interval shocks now st entry) s =
        getSecurity (setSecurityPrice st entry.1
          (stepNewPrice P interval entry.2 sec0.last_price (shocks entry.1)) now) s := by
      unfold stepOne
      rw [hm]
      rfl
    rw [hres]
    exact getSecurity_setSecurityPrice st entry.1 s _ now

theorem stepOne_floor_pres (P : MathPrims) (interval : ℚ) (shocks : String → ℚ)
    (now : ℚ) (st : MarketState) (entry : String × SecurityConfig) (s : String)
    (h : ∀ sec, getSecurity st s = some sec → MIN_PRICE ≤ sec.last_price) :
    ∀ sec, getSecurity (stepOne P interval shocks now st entry) s = some sec →
      MIN_PRICE ≤ sec.last_price := by
  intro sec hsec
  rcases getSecurity_stepOne P interval shocks now st entry s with ⟨_, heq⟩ |
    ⟨sec0, hs0, heq⟩
  · exact h sec (heq ▸ hsec)
  · rw [heq] at hsec
    cases ho : getSecurity st s with
    | none => rw [ho] at hsec; cases hsec
    | some secOld =>
      rw [ho, Option.map_some'] at hsec
      have hold := h secOld ho
      cases hsec
      split
      · exact MIN_PRICE_le_stepNewPrice _ _ _ _ _
      · exact hold

theorem stepOne_isSome (P : MathPrims) (interval : ℚ) (shocks : String → ℚ)
    (now : ℚ) (st : MarketState) (entry : String × SecurityConfig) (s : String)
    (h : (getSecurity st s).isSome) :
    (getSecurity (stepOne P interval shocks now st entry) s).isSome := by
  rcases getSecurity_stepOne P interval shocks now st entry s with ⟨_, heq⟩ |
    ⟨sec0, _, heq⟩
  · rwa [heq]
  · rw [heq]
    cases hgo : getSecurity st s with
    | none => rw [hgo] at h; exact absurd h (by decide)
    | some sec => rfl

theorem foldl_stepOne_pres (P : MathPrims) (interval : ℚ) (shocks : String → ℚ)
    (now : ℚ) (prop : MarketState → Prop)
    (hpres : ∀ st entry, prop st → prop (stepOne P interval shocks now st entry)) :
    ∀ (cs : List (String × SecurityConfig)) (st : MarketState), prop st →
      prop (cs.foldl (stepOne P interval shocks now) st) := by
  intro cs
  induction cs with
  | nil => intro st h; exact h
  | cons e cs ih => intro st h; exact ih _ (hpres st e h)

theorem getConfig_mem (sim : MarketSimulator) (symbol : String) (config : SecurityConfig)
    (h : getConfig sim symbol = some config) : (symbol, config) ∈ sim.configs := by
  unfold getConfig at h
  cases hf : sim.configs.find? (fun p => p.1 == symbol) with
  | none => rw [hf] at h; cases h
  | some pr =>
    rw [hf] at h
    have hp := List.find?_some hf
    have hmem := List.mem_of_find?_eq_some hf
    simp only [Option.map_some', Option.some.injEq] at h
    have h1 : pr.1 = symbol := by simpa using hp
    have : pr = (symbol, config) := by
      cases pr; simp only [Prod.mk.injEq]; exact ⟨h1, h⟩
    rwa [this] at hmem

/-- **C1** (price floor invariant).  For any shock assignment and any signed
impact quantity: (a) after `MarketSimulator.step`, every security that has a
configuration and an existing row ends with `last_price ≥ MIN_PRICE`; (b)
after any price-updating `apply_order_impact` call (nonzero quantity,
configured symbol, existing row — the remaining calls leave the state
untouched, see the no-op guard claim), the security's `last_price` is
`≥ MIN_PRICE`.  Both updates clamp with `max(MIN_PRICE, ...)`. -/
theorem c1_price_floor (sim : MarketSimulator) (P : MathPrims) (shocks : String → ℚ)
    (now : ℚ) (st : MarketState) (symbol : String) (config : SecurityConfig)
    (security : Security) (signed_quantity : ℚ) :
    (getConfig sim symbol = some config → getSecurity st symbol = some security →
      ∃ sec', getSecurity (sim.step P shocks now st) symbol = some sec' ∧
        MIN_PRICE ≤ sec'.last_price)
    ∧ (getConfig sim symbol = some config → getSecurity st symbol = some security →
      signed_quantity ≠ 0 →
      ∃ sec', getSecurity (sim.apply_order_impact st symbol signed_quantity now) symbol
          = some sec' ∧ MIN_PRICE ≤ sec'.last_price) := by
  constructor
  · intro hc hs
    obtain ⟨l1, l2, hsplit⟩ := List.append_of_mem (getConfig_mem sim symbol config hc)
    unfold MarketSimulator.step
    rw [hsplit, List.foldl_append, List.foldl_cons]
    set st1 := l1.foldl (stepOne P sim.interval shocks now) st with hst1
    have hsome1 : (getSecurity st1 symbol).isSome := by
      refine foldl_stepOne_pres P sim.interval shocks now
        (fun s => (getSecurity s symbol).isSome = true)
        (fun s e h => stepOne_isSome P sim.interval shocks now s e symbol h) l1 st ?_
      show (getSecurity st symbol).isSome = true
      rw [hs]; rfl
    obtain ⟨sec1, hsec1⟩ := Option.isSome_iff_exists.mp hsome1
    set st2 := stepOne P sim.interval shocks now st1 (symbol, config) with hst2
    have hfloor2 : ∀ sec, getSecurity st2 symbol = some sec → MIN_PRICE ≤ sec.last_price := by
      intro sec hsec
      rw [hst2] at hsec
      rcases getSecurity_stepOne P sim.interval shocks now st1 (symbol, config) symbol
        with ⟨hnone, _⟩ | ⟨sec0, _, heq⟩
      · rw [hsec1] at hnone; cases hnone
      · rw [heq, hsec1, Option.map_some'] at hsec
        have hfind : st1.securities.find? (fun x => x.symbol == symbol) = some sec1 := hsec1
        have hsym : (sec1.symbol == symbol) = true := by
          simpa using List.find?_some hfind
        rw [if_pos hsym] at hsec
        cases hsec
        exact MIN_PRICE_le_stepNewPrice _ _ _ _ _
    have hsome2 : (getSecurity st2 symbol).isSome :=
      stepOne_isSome P sim.interval shocks now st1 (symbol, config) symbol hsome1
    have hfinal := foldl_stepOne_pres P sim.interval shocks now
      (fun s => (getSecurity s symbol).isSome = true ∧
        ∀ sec, getSecurity s symbol = some sec → MIN_PRICE ≤ sec.last_price)
      (fun s e h => ⟨stepOne_isSome P sim.interval shocks now s e symbol h.1,
        stepOne_floor_pres P sim.interval shocks now s e symbol h.2⟩)
      l2 st2 ⟨hsome2, hfloor2⟩
    obtain ⟨secF, hsecF⟩ := Option.isSome_iff_exists.mp hfinal.1
    exact ⟨secF, hsecF, hfinal.2 secF hsecF⟩
  · intro hc hs hq
    have hres : getSecurity (sim.apply_order_impact st symbol signed_quantity now) symbol =
        getSecurity (setSecurityPrice st symbol
          (max MIN_PRICE (security.last_price *
            max (1/2) (min (3/2)
              (1 + config.impact * signed_quantity / max config.liquidity (1/1000000))))) now)
          symbol := by
      unfold MarketSimulator.apply_order_impact
      rw [if_neg hq, hc, hs]
      rfl
    have hfind : st.securities.find? (fun x => x.symbol == symbol) = some security := hs
    have hsym : (security.symbol == symbol) = true := by
      simpa using List.find?_some hfind
    refine ⟨{ security with
      last_price := max MIN_PRICE (security.last_price *
        max (1/2) (min (3/2)
          (1 + config.impact * signed_quantity / max config.liquidity (1/1000000)))),
      updated_at := now }, ?_, le_max_left _ _⟩
    rw [hres, getSecurity_setSecurityPrice, hs, Option.map_some', if_pos hsym]

/-- Closed witness for C1 at a concrete simulator, state and inputs. -/
theorem c1_price_floor_witness :
    (∃ sec', getSecurity (arcSim.step unitPrims (fun _ => 0) 0 arcState) "ARC" = some sec' ∧
      MIN_PRICE ≤ sec'.last_price)
    ∧ (∃ sec', getSecurity (arcSim.apply_order_impact arcState "ARC" 1 0) "ARC" = some sec' ∧
      MIN_PRICE ≤ sec'.last_price) := by
  have h := c1_price_floor arcSim unitPrims (fun _ => 0) 0 arcState "ARC" arcConfig
    arcSecurity 1
  exact ⟨h.1 rfl rfl, h.2 rfl rfl (by norm_num)⟩

/-- **C2** (impact boundedness).  Whenever `apply_order_impact` updates a
price (configured symbol with a row, nonzero quantity) and the configured
liquidity satisfies the floor `liquidity ≥ 1e-6` guaranteed by
`reload_config`, the multiplicative factor it applies is exactly
`1 + impact · signed_quantity / liquidity` clamped to `[0.5, 1.5]`, and the
new price is `max(MIN_PRICE, old_price · factor)`; the clamped factor always
lies in `[1/2, 3/2]` no matter how large `signed_quantity` is. -/
theorem c2_impact_bounded (sim : MarketSimulator) (st : MarketState) (symbol : String)
    (signed_quantity now : ℚ) (config : SecurityConfig) (security : Security)
    (hc : getConfig sim symbol = some config) (hs : getSecurity st symbol = some security)
    (hq : signed_quantity ≠ 0) (hliq : 1/1000000 ≤ config.liquidity) :
    getSecurity (sim.apply_order_impact st symbol signed_quantity now) symbol =
      some { security with
        last_price := max MIN_PRICE (security.last_price *
          max (1/2) (min (3/2) (1 + config.impact * signed_quantity / config.liquidity))),
        updated_at := now }
    ∧ 1/2 ≤ max (1/2) (min (3/2) (1 + config.impact * signed_quantity / config.liquidity))
    ∧ max (1/2) (min (3/2) (1 + config.impact * signed_quantity / config.liquidity)) ≤ 3/2 := by
  have hmaxliq : max config.liquidity (1/1000000 : ℚ) = config.liquidity := max_eq_left hliq
  refine ⟨?_, le_max_left _ _, ?_⟩
  · have hres : getSecurity (sim.apply_order_impact st symbol signed_quantity now) symbol =
        getSecurity (setSecurityPrice st symbol
          (max MIN_PRICE (security.last_price *
            max (1/2) (min (3/2)
              (1 + config.impact * signed_quantity / max config.liquidity (1/1000000))))) now)
          symbol := by
      unfold MarketSimulator.apply_order_impact
      rw [if_neg hq, hc, hs]
      rfl
    have hfind : st.securities.find? (fun x => x.symbol == symbol) = some security := hs
    have hsym : (security.symbol == symbol) = true := by
      simpa using List.find?_some hfind
    rw [hres, hmaxliq, getSecurity_setSecurityPrice, hs, Option.map_some', if_pos hsym]
  · exact max_le (by norm_num) (min_le_left _ _)

/-- Closed witness for C2 with an adversarially large quantity. -/
theorem c2_impact_bounded_witness :
    getSecurity (arcSim.apply_order_impact arcState "ARC" 1000000000 0) "ARC" =
      some { arcSecurity with
        last_price := max MIN_PRICE (arcSecurity.last_price *
          max (1/2) (min (3/2)
            (1 + arcConfig.impact * 1000000000 / arcConfig.liquidity))),
        updated_at := 0 }
    ∧ 1/2 ≤ max (1/2) (min (3/2) (1 + arcConfig.impact * 1000000000 / arcConfig.liquidity))
    ∧ max (1/2) (min (3/2) (1 + arcConfig.impact * 1000000000 / arcConfig.liquidity)) ≤ 3/2 :=
  c2_impact_bounded arcSim arcState "ARC" 1000000000 0 arcConfig arcSecurity rfl rfl
    (by norm_num) (by norm_num [arcConfig])

/-- **C10** (implicit no-op guard).  `apply_order_impact` with a zero signed
quantity, an unconfigured symbol, or a missing `Security` row returns the
state completely unchanged: no price changes, no holding changes, and no
history row is appended. -/
theorem c10_impact_noop (sim : MarketSimulator) (st : MarketState) (symbol : String)
    (signed_quantity now : ℚ)
    (h : signed_quantity = 0 ∨ getConfig sim symbol = none ∨ getSecurity st symbol = none) :
    sim.apply_order_impact st symbol signed_quantity now = st := by
  unfold MarketSimulator.apply_order_impact
  rcases h with h | h | h
  · rw [if_pos h]
  · by_cases hq : signed_quantity = 0
    · rw [if_pos hq]
    · rw [if_neg hq, h]
  · by_cases hq : signed_quantity = 0
    · rw [if_pos hq]
    · rw [if_neg hq]
      cases hc : getConfig sim symbol with
      | none => rfl
      | some config =>
        show (match getSecurity st symbol with
          | none => st
          | some security =>
            let adjustment := max (1/2) (min (3/2)
              (1 + config.impact * signed_quantity / max config.liquidity (1/1000000)))
            let new_price := max MIN_PRICE (security.last_price * adjustment)
            let st' := setSecurityPrice st symbol new_price now
            { st' with history := st'.history ++ [⟨symbol, new_price, now⟩] }) = st
        rw [h]

/-- Closed witness for C10: each of the three guard conditions at concrete
inputs. -/
theorem c10_impact_noop_witness :
    arcSim.apply_order_impact arcState "ARC" 0 0 = arcState
    ∧ arcSim.apply_order_impact arcState "ZZZ" 3 0 = arcState
    ∧ arcSim.apply_order_impact { arcState with securities := [] } "ARC" 3 0 =
        { arcState with securities := [] } :=
  ⟨c10_impact_noop arcSim arcState "ARC" 0 0 (Or.inl rfl),
   c10_impact_noop arcSim arcState "ZZZ" 3 0 (Or.inr (Or.inl rfl)),
   c10_impact_noop arcSim { arcState with securities := [] } "ARC" 3 0
     (Or.inr (Or.inr rfl))⟩

/-- The `"ARC"` security at spot 120 (used for the expiry scenario). -/
def arcSecurity120 : Security := { arcSecurity with last_price := 120 }

/-- State with `"ARC"` at spot 120. -/
def arcState120 : MarketState := { arcState with securities := [arcSecurity120] }

/-- The `"ARC"` security at spot 120 with volatility 0. -/
def arcSecurityVol0 : Security := { arcSecurity with last_price := 120, volatility := 0 }

/-- State with `"ARC"` at spot 120 and volatility 0. -/
def arcStateVol0 : MarketState := { arcState with securities := [arcSecurityVol0] }

/-- Rational stand-ins for the transcendental calls at the points reached by
the volatility-zero evaluation below: `erf` of the huge positive arguments is
1 to astronomical accuracy, `exp(-0.01) ≈ 0.99`, `ln 1.2 ≈ 0.1823`,
`sqrt 1 = 1`. -/
def counterPrims : MathPrims :=
  { mexp := fun _ => 99/100, mlog := fun _ => 1823/10000,
    msqrt := fun _ => 1, merf := fun _ => 1 }

/-- `price_option` on an already-expired listing returns the intrinsic value
(the `time_to_expiry <= 0` branch of the source). -/
theorem price_option_expired (sim : MarketSimulator) (P : MathPrims)
    (st : MarketState) (listing : OptionListing) (now : ℚ) (security : Security)
    (hs : getSecurity st listing.security_symbol = some security)
    (hexp : listing.expiration ≤ now) :
    sim.price_option P st listing now =
      intrinsicValue listing.option_type (max MIN_PRICE security.last_price)
        listing.strike := by
  have ht : max 0 (listing.expiration - now) / SECONDS_IN_YEAR ≤ (0:ℚ) := by
    have hmax : max (0:ℚ) (listing.expiration - now) = 0 := max_eq_left (by linarith)
    rw [hmax]
    norm_num
  have hred : sim.price_option P st listing now =
      (if max 0 (listing.expiration - now) / SECONDS_IN_YEAR ≤ (0:ℚ) then
        intrinsicValue listing.option_type (max MIN_PRICE security.last_price)
          listing.strike
      else black_scholes P (max MIN_PRICE security.last_price) listing.strike
        (max 0 (listing.expiration - now) / SECONDS_IN_YEAR) sim.risk_free_rate
        (max MIN_PRICE security.volatility) listing.option_type) := by
    unfold MarketSimulator.price_option
    rw [hs]
  rw [hred, if_pos ht]

/-- `price_option` on an unexpired listing calls `_black_scholes` with the
clamped spot and the clamped volatility `max(MIN_PRICE, σ)` (the
`time_to_expiry > 0` branch of the source). -/
theorem price_option_unexpired (sim : MarketSimulator) (P : MathPrims)
    (st : MarketState) (listing : OptionListing) (now : ℚ) (security : Security)
    (hs : getSecurity st listing.security_symbol = some security)
    (hexp : now < listing.expiration) :
    sim.price_option P st listing now =
      black_scholes P (max MIN_PRICE security.last_price) listing.strike
        (max 0 (listing.expiration - now) / SECONDS_IN_YEAR) sim.risk_free_rate
        (max MIN_PRICE security.volatility) listing.option_type := by
  have hpos : (0:ℚ) < max 0 (listing.expiration - now) / SECONDS_IN_YEAR := by
    have hmax : max (0:ℚ) (listing.expiration - now) = listing.expiration - now :=
      max_eq_right (by linarith)
    rw [hmax]
    have hy : (0:ℚ) < SECONDS_IN_YEAR := by norm_num [SECONDS_IN_YEAR]
    exact div_pos (by linarith) hy
  have ht : ¬ (max 0 (listing.expiration - now) / SECONDS_IN_YEAR ≤ (0:ℚ)) :=
    not_le.mpr hpos
  have hred : sim.price_option P st listing now =
      (if max 0 (listing.expiration - now) / SECONDS_IN_YEAR ≤ (0:ℚ) then
        intrinsicValue listing.option_type (max MIN_PRICE security.last_price)
          listing.strike
      else black_scholes P (max MIN_PRICE security.last_price) listing.strike
        (max 0 (listing.expiration - now) / SECONDS_IN_YEAR) sim.risk_free_rate
        (max MIN_PRICE security.volatility) listing.option_type) := by
    unfold MarketSimulator.price_option
    rw [hs]
  rw [hred, if_neg ht]

/-- **C4** (option intrinsic value at expiry).  For every option listing whose
expiration is not in the future, `price_option` returns exactly the intrinsic
value on the floor-clamped spot — `max(0, S-K)` for a call, `max(0, K-S)` for
a put; in particular a call with strike 100 on a security at spot 120 with
zero time to expiry prices at exactly 20. -/
theorem c4_option_intrinsic_at_expiry :
    (∀ (sim : MarketSimulator) (P : MathPrims) (st : MarketState)
      (listing : OptionListing) (now : ℚ) (security : Security),
      getSecurity st listing.security_symbol = some security →
      listing.expiration ≤ now →
      sim.price_option P st listing now =
        intrinsicValue listing.option_type (max MIN_PRICE security.last_price)
          listing.strike)
    ∧ arcSim.price_option unitPrims arcState120 arcCallExpired 0 = 20 := by
  refine ⟨fun sim P st listing now security hs hexp =>
    price_option_expired sim P st listing now security hs hexp, ?_⟩
  rw [price_option_expired arcSim unitPrims arcState120 arcCallExpired 0
    arcSecurity120 rfl le_rfl]
  norm_num [intrinsicValue, arcCallExpired, arcSecurity120, arcSecurity, MIN_PRICE]

/-- Closed witness for the universally quantified part of C4, at the concrete
expiry scenario of the specification. -/
theorem c4_option_intrinsic_at_expiry_witness :
    arcSim.price_option unitPrims arcState120 arcCallExpired 0 =
      intrinsicValue arcCallExpired.option_type (max MIN_PRICE arcSecurity120.last_price)
        arcCallExpired.strike :=
  c4_option_intrinsic_at_expiry.1 arcSim unitPrims arcState120 arcCallExpired 0
    arcSecurity120 rfl le_rfl

/-- **C7** (counterexample).  The claim says that for `time_to_expiry > 0` and
`volatility ≤ 0`, `price_option` returns the intrinsic value.  It does not:
`price_option` first clamps the volatility to `max(MIN_PRICE, σ) = 0.01` and
then calls `_black_scholes` with that positive volatility, so the degenerate
guard inside `_black_scholes` never fires on σ.  Concretely, with spot 120,
strike 100, one year to expiry, σ = 0 and rational stand-ins for the
transcendental functions accurate at the reached points, the returned premium
is 21 (≈ the true Black-Scholes value 120 − 100·e^(-0.01) ≈ 20.995), not the
intrinsic 20. -/
theorem c7_degenerate_vol_counterexample :
    arcSim.price_option counterPrims arcStateVol0 arcCallOneYear 0 = 21
    ∧ intrinsicValue OptionType.call (max MIN_PRICE (120:ℚ)) 100 = 20
    ∧ (21:ℚ) ≠ 20 := by
  refine ⟨?_, by norm_num [intrinsicValue, MIN_PRICE], by norm_num⟩
  rw [price_option_unexpired arcSim counterPrims arcStateVol0 arcCallOneYear 0
    arcSecurityVol0 rfl (by norm_num [arcCallOneYear, SECONDS_IN_YEAR])]
  norm_num [black_scholes, norm_cdf, counterPrims, arcCallOneYear, arcSecurityVol0,
    arcSecurity, arcSim, SECONDS_IN_YEAR, MIN_PRICE]

/-- **C7** (amended).  For an option listing with `time_to_expiry > 0` on a
security with non-positive volatility, `price_option` does not fall back to
the intrinsic value: it substitutes the clamped volatility
`max(MIN_PRICE, σ) = MIN_PRICE = 0.01` and returns the Black-Scholes value at
that volatility.  (`_black_scholes` itself falls back to intrinsic only when
one of the arguments actually passed to it is non-positive.) -/
theorem c7_degenerate_vol_substitutes (sim : MarketSimulator) (P : MathPrims)
    (st : MarketState) (listing : OptionListing) (now : ℚ) (security : Security)
    (hs : getSecurity st listing.security_symbol = some security)
    (hexp : now < listing.expiration) (hvol : security.volatility ≤ 0) :
    sim.price_option P st listing now =
      black_scholes P (max MIN_PRICE security.last_price) listing.strike
        (max 0 (listing.expiration - now) / SECONDS_IN_YEAR) sim.risk_free_rate
        MIN_PRICE listing.option_type := by
  have hsig : max MIN_PRICE security.volatility = MIN_PRICE :=
    max_eq_left (le_trans hvol (by norm_num [MIN_PRICE]))
  rw [price_option_unexpired sim P st listing now security hs hexp, hsig]

/-- Closed witness for the amended C7 at the concrete σ = 0 listing. -/
theorem c7_degenerate_vol_substitutes_witness :
    arcSim.price_option counterPrims arcStateVol0 arcCallOneYear 0 =
      black_scholes counterPrims (max MIN_PRICE arcSecurityVol0.last_price)
        arcCallOneYear.strike
        (max 0 (arcCallOneYear.expiration - 0) / SECONDS_IN_YEAR)
        arcSim.risk_free_rate MIN_PRICE arcCallOneYear.option_type :=
  c7_degenerate_vol_substitutes arcSim counterPrims arcStateVol0 arcCallOneYear 0
    arcSecurityVol0 rfl (by norm_num [arcCallOneYear, SECONDS_IN_YEAR]) le_rfl

/-- **C3** (code behaviour at the failing input).  The specification states
that `apply_order_impact` performs its read-modify-write while holding the
same `MarketSimulator._lock` that serializes a full tick.  In the source,
`step` brackets its whole body in `with self._lock:` but `apply_order_impact`
acquires no lock at all — its only bracketing is the transient app context.
Formally: no `apply_order_impact` event trace ever contains a lock event,
while a concrete price-updating call does write a price, and every `step`
trace begins with the lock acquisition and ends with the release. -/
theorem c3_impact_without_lock :
    (∀ (sim : MarketSimulator) (st : MarketState) (symbol : String) (q : ℚ)
      (ctx : Bool),
      MarketEvent.lock_acquire ∉ applyOrderImpactEvents sim st symbol q ctx ∧
      MarketEvent.lock_release ∉ applyOrderImpactEvents sim st symbol q ctx)
    ∧ MarketEvent.price_write "ARC" 150 ∈ applyOrderImpactEvents arcSim arcState "ARC" 1 true
    ∧ (∀ (sim : MarketSimulator) (P : MathPrims) (shocks : String → ℚ) (now : ℚ)
      (st : MarketState),
      (stepEvents sim P shocks now st).head? = some MarketEvent.lock_acquire ∧
      (stepEvents sim P shocks now st).getLast? = some MarketEvent.lock_release) := by
  refine ⟨?_, ?_, ?_⟩
  · intro sim st symbol q ctx
    constructor
    · unfold applyOrderImpactEvents
      split
      · simp
      · split
        · simp
        · cases hg : getSecurity st symbol <;> cases ctx <;> simp [hg]
    · unfold applyOrderImpactEvents
      split
      · simp
      · split
        · simp
        · cases hg : getSecurity st symbol <;> cases ctx <;> simp [hg]
  · have htrace : applyOrderImpactEvents arcSim arcState "ARC" 1 true =
        [MarketEvent.price_write "ARC" (max MIN_PRICE (arcSecurity.last_price *
            max (1/2) (min (3/2)
              (1 + arcConfig.impact * 1 / max arcConfig.liquidity (1/1000000))))),
         MarketEvent.history_append "ARC" (max MIN_PRICE (arcSecurity.last_price *
            max (1/2) (min (3/2)
              (1 + arcConfig.impact * 1 / max arcConfig.liquidity (1/1000000))))),
         MarketEvent.session_flush] := rfl
    have hval : max MIN_PRICE (arcSecurity.last_price *
        max (1/2) (min (3/2)
          (1 + arcConfig.impact * 1 / max arcConfig.liquidity (1/1000000)))) = 150 := by
      norm_num [arcSecurity, arcConfig, MIN_PRICE]
    rw [htrace, hval]
    simp
  · intro sim P shocks now st
    constructor
    · rfl
    · have hassoc : stepEvents sim P shocks now st =
          ([MarketEvent.lock_acquire] ++ stepBodyEvents P sim.interval shocks now sim.configs st
            ++ [MarketEvent.session_commit]) ++ [MarketEvent.lock_release] := by
        unfold stepEvents
        simp [List.append_assoc]
      rw [hassoc, List.getLast?_concat]

theorem equity_trade_zero_qty (sim : MarketSimulator) (st : MarketState) (user : User)
    (symbol : String) (now : ℚ) :
    execute_equity_trade sim st user symbol 0 now = .error "Quantity must be non-zero." := by
  unfold execute_equity_trade
  rw [if_pos rfl]

theorem equity_trade_no_security (sim : MarketSimulator) (st : MarketState) (user : User)
    (symbol : String) (quantity now : ℚ) (hq : quantity ≠ 0)
    (hs : getSecurity st symbol = none) :
    execute_equity_trade sim st user symbol quantity now = .error "Security not found." := by
  unfold execute_equity_trade
  rw [if_neg hq, hs]

theorem equity_trade_insufficient_balance (sim : MarketSimulator) (st : MarketState)
    (user : User) (symbol : String) (quantity now : ℚ) (security : Security)
    (hq : 0 < quantity) (hs : getSecurity st symbol = some security)
    (hb : user.balance < max MIN_PRICE security.last_price * |quantity|) :
    execute_equity_trade sim st user symbol quantity now =
      .error "Insufficient balance to buy." := by
  unfold execute_equity_trade
  rw [if_neg hq.ne', hs]
  dsimp only
  rw [if_pos hq, if_pos hb]

theorem equity_trade_insufficient_shares (sim : MarketSimulator) (st : MarketState)
    (user : User) (symbol : String) (quantity now : ℚ) (security : Security)
    (hq : quantity < 0) (hs : getSecurity st symbol = some security)
    (hh : findSecurityHolding st.security_holdings user.id symbol = none ∨
      ∃ h, findSecurityHolding st.security_holdings user.id symbol = some h ∧
        h.quantity < |quantity|) :
    execute_equity_trade sim st user symbol quantity now =
      .error "Not enough shares to sell." := by
  unfold execute_equity_trade
  rw [if_neg hq.ne, hs]
  dsimp only
  rw [if_neg (not_lt.mpr hq.le)]
  rcases hh with hh | ⟨h, hh, hlt⟩
  · rw [hh]
  · rw [hh]
    dsimp only
    rw [if_pos hlt]

theorem option_trade_zero_qty (sim : MarketSimulator) (P : MathPrims) (st : MarketState)
    (user : User) (listing_id : ℕ) (now : ℚ) :
    execute_option_trade sim P st user listing_id 0 now =
      .error "Quantity must be non-zero." := by
  unfold execute_option_trade
  rw [if_pos rfl]

theorem option_trade_no_listing (sim : MarketSimulator) (P : MathPrims) (st : MarketState)
    (user : User) (listing_id : ℕ) (quantity : ℤ) (now : ℚ) (hq : quantity ≠ 0)
    (hl : findOptionListing st.option_listings listing_id = none) :
    execute_option_trade sim P st user listing_id quantity now =
      .error "Option listing not found." := by
  unfold execute_option_trade
  rw [if_neg hq, hl]

theorem option_trade_insufficient_balance (sim : MarketSimulator) (P : MathPrims)
    (st : MarketState) (user : User) (listing_id : ℕ) (quantity : ℤ) (now : ℚ)
    (listing : OptionListing) (hq : 0 < quantity)
    (hl : findOptionListing st.option_listings listing_id = some listing)
    (hb : user.balance < sim.price_option P st listing now * ((|quantity| : ℤ) : ℚ)) :
    execute_option_trade sim P st user listing_id quantity now =
      .error "Insufficient balance to buy option." := by
  unfold execute_option_trade
  rw [if_neg hq.ne', hl]
  dsimp only
  rw [if_pos hq, if_pos hb]

theorem option_trade_insufficient_contracts (sim : MarketSimulator) (P : MathPrims)
    (st : MarketState) (user : User) (listing_id : ℕ) (quantity : ℤ) (now : ℚ)
    (listing : OptionListing) (hq : quantity < 0)
    (hl : findOptionListing st.option_listings listing_id = some listing)
    (hh : findOptionHolding st.option_holdings user.id listing_id = none ∨
      ∃ h, findOptionHolding st.option_holdings user.id listing_id = some h ∧
        h.quantity < |quantity|) :
    execute_option_trade sim P st user listing_id quantity now =
      .error "Not enough contracts to sell." := by
  unfold execute_option_trade
  rw [if_neg hq.ne, hl]
  dsimp only
  rw [if_neg (not_lt.mpr hq.le)]
  rcases hh with hh | ⟨h, hh, hlt⟩
  · rw [hh]
  · rw [hh]
    dsimp only
    rw [if_pos hlt]

/-- The `margin_delta` quantity computed inside `execute_future_trade`. -/
def futureMarginDelta (sim : MarketSimulator) (P : MathPrims) (st : MarketState)
    (user : User) (listing : FutureListing) (listing_id : ℕ) (quantity : ℤ)
    (now : ℚ) : ℚ :=
  let forward_price := sim.price_future P st listing now
  let previous_qty : ℤ :=
    ((findFutureHolding st.future_holdings user.id listing_id).map
      FutureHolding.quantity).getD 0
  let new_qty := previous_qty + quantity
  forward_price * ((|new_qty| : ℤ) : ℚ) * (1/10)
    - forward_price * ((|previous_qty| : ℤ) : ℚ) * (1/10)

theorem future_trade_zero_qty (sim : MarketSimulator) (P : MathPrims) (st : MarketState)
    (user : User) (listing_id : ℕ) (now : ℚ) :
    execute_future_trade sim P st user listing_id 0 now =
      .error "Quantity must be non-zero." := by
  unfold execute_future_trade
  rw [if_pos rfl]

theorem future_trade_no_listing (sim : MarketSimulator) (P : MathPrims) (st : MarketState)
    (user : User) (listing_id : ℕ) (quantity : ℤ) (now : ℚ) (hq : quantity ≠ 0)
    (hl : findFutureListing st.future_listings listing_id = none) :
    execute_future_trade sim P st user listing_id quantity now =
      .error "Future listing not found." := by
  unfold execute_future_trade
  rw [if_neg hq, hl]

theorem future_trade_insufficient_margin (sim : MarketSimulator) (P : MathPrims)
    (st : MarketState) (user : User) (listing_id : ℕ) (quantity : ℤ) (now : ℚ)
    (listing : FutureListing) (hq : quantity ≠ 0)
    (hl : findFutureListing st.future_listings listing_id = some listing)
    (hmd : 0 < futureMarginDelta sim P st user listing listing_id quantity now)
    (hb : user.balance < futureMarginDelta sim P st user listing listing_id quantity now) :
    execute_future_trade sim P st user listing_id quantity now =
      .error "Insufficient balance for margin." := by
  unfold execute_future_trade
  rw [if_neg hq, hl]
  dsimp only
  split
  · rfl
  · next hcond =>
    exact absurd ⟨hmd, hb⟩ hcond

/-- **C6** (error atomicity on insufficient balance).  A buy whose notional
exceeds the user's balance fails with exactly the insufficient-balance error.
In the source every `raise` happens before any holding mutation, and the
function never touches `user.balance` at all, so the error leaves the user's
balance and holding untouched — in this embedding the error result returns no
modified state, leaving the caller's state exactly as it was. -/
theorem c6_insufficient_balance (sim : MarketSimulator) (st : MarketState)
    (user : User) (symbol : String) (quantity now : ℚ) (security : Security)
    (hq : 0 < quantity) (hs : getSecurity st symbol = some security)
    (hb : user.balance < max MIN_PRICE security.last_price * |quantity|) :
    execute_equity_trade sim st user symbol quantity now =
      .error "Insufficient balance to buy." :=
  equity_trade_insufficient_balance sim st user symbol quantity now security hq hs hb

/-- A user with balance 10 (the specification's insufficient-balance
scenario). -/
def pauper : User := { id := 7, balance := 10 }

/-- A user with a large balance. -/
def richUser : User := { id := 9, balance := 1000 }

/-- The `"ARC"` security priced at 50. -/
def arcSecurity50 : Security := { arcSecurity with last_price := 50 }

/-- State with `"ARC"` at price 50. -/
def arcState50 : MarketState := { arcState with securities := [arcSecurity50] }

/-- Closed witness for C6: the specification's scenario — balance 10, one
share priced 50. -/
theorem c6_insufficient_balance_witness :
    execute_equity_trade arcSim arcState50 pauper "ARC" 1 0 =
      .error "Insufficient balance to buy." :=
  c6_insufficient_balance arcSim arcState50 pauper "ARC" 1 0 arcSecurity50
    (by norm_num) rfl (by norm_num [pauper, arcSecurity50, arcSecurity, MIN_PRICE])

/-- `true` exactly on a successful trade result. -/
def tradeOk : Except String (TradeResult × MarketState) → Bool
  | .ok _ => true
  | .error _ => false

/-- **C5** (counterexample).  The claim says all three trade operations,
futures included, fail when a sell/short exceeds the user's held quantity.
`execute_future_trade` does not: with no existing position and sufficient
balance for the margin, a short of 5 contracts succeeds (this is by design —
the margin-based future desk supports signed positions, as the
specification's own position-reversal scenario requires). -/
theorem c5_future_short_succeeds :
    tradeOk (execute_future_trade arcSim unitPrims arcState richUser 1 (-5) 0) = true := by
  norm_num [tradeOk, execute_future_trade, findFutureListing, findFutureHolding,
    MarketSimulator.price_future, getSecurity, findSecurity, arcState, arcSecurity,
    arcFutureNow, arcSim, richUser, unitPrims, MIN_PRICE, SECONDS_IN_YEAR,
    MarketSimulator.apply_order_impact, getConfig, arcConfig, upsertFutureHolding]

/-- **C5** (amended).  Equity and option trades fail with the descriptive
errors of the source on each of: zero quantity, missing security/listing,
insufficient balance on a buy, and a sell exceeding the held quantity.
Future trades fail on zero quantity, a missing listing, and insufficient
balance for a positive margin delta; a short exceeding the held quantity is
not an error for futures (it opens or extends a short position). -/
theorem c5_trade_validation_errors :
    (∀ (sim : MarketSimulator) (st : MarketState) (user : User) (symbol : String)
      (now : ℚ),
      execute_equity_trade sim st user symbol 0 now = .error "Quantity must be non-zero.")
    ∧ (∀ (sim : MarketSimulator) (st : MarketState) (user : User) (symbol : String)
      (quantity now : ℚ), quantity ≠ 0 → getSecurity st symbol = none →
      execute_equity_trade sim st user symbol quantity now = .error "Security not found.")
    ∧ (∀ (sim : MarketSimulator) (st : MarketState) (user : User) (symbol : String)
      (quantity now : ℚ) (security : Security), 0 < quantity →
      getSecurity st symbol = some security →
      user.balance < max MIN_PRICE security.last_price * |quantity| →
      execute_equity_trade sim st user symbol quantity now =
        .error "Insufficient balance to buy.")
    ∧ (∀ (sim : MarketSimulator) (st : MarketState) (user : User) (symbol : String)
      (quantity now : ℚ) (security : Security), quantity < 0 →
      getSecurity st symbol = some security →
      (findSecurityHolding st.security_holdings user.id symbol = none ∨
        ∃ h, findSecurityHolding st.security_holdings user.id symbol = some h ∧
          h.quantity < |quantity|) →
      execute_equity_trade sim st user symbol quantity now =
        .error "Not enough shares to sell.")
    ∧ (∀ (sim : MarketSimulator) (P : MathPrims) (st : MarketState) (user : User)
      (listing_id : ℕ) (now : ℚ),
      execute_option_trade sim P st user listing_id 0 now =
        .error "Quantity must be non-zero.")
    ∧ (∀ (sim : MarketSimulator) (P : MathPrims) (st : MarketState) (user : User)
      (listing_id : ℕ) (quantity : ℤ) (now : ℚ), quantity ≠ 0 →
      findOptionListing st.option_listings listing_id = none →
      execute_option_trade sim P st user listing_id quantity now =
        .error "Option listing not found.")
    ∧ (∀ (sim : MarketSimulator) (P : MathPrims) (st : MarketState) (user : User)
      (listing_id : ℕ) (quantity : ℤ) (now : ℚ) (listing : OptionListing),
      0 < quantity → findOptionListing st.option_listings listing_id = some listing →
      user.balance < sim.price_option P st listing now * ((|quantity| : ℤ) : ℚ) →
      execute_option_trade sim P st user listing_id quantity now =
        .error "Insufficient balance to buy option.")
    ∧ (∀ (sim : MarketSimulator) (P : MathPrims) (st : MarketState) (user : User)
      (listing_id : ℕ) (quantity : ℤ) (now : ℚ) (listing : OptionListing),
      quantity < 0 → findOptionListing st.option_listings listing_id = some listing →
      (findOptionHolding st.option_holdings user.id listing_id = none ∨
        ∃ h, findOptionHolding st.option_holdings user.id listing_id = some h ∧
          h.quantity < |quantity|) →
      execute_option_trade sim P st user listing_id quantity now =
        .error "Not enough contracts to sell.")
    ∧ (∀ (sim : MarketSimulator) (P : MathPrims) (st : MarketState) (user : User)
      (listing_id : ℕ) (now : ℚ),
      execute_future_trade sim P st user listing_id 0 now =
        .error "Quantity must be non-zero.")
    ∧ (∀ (sim : MarketSimulator) (P : MathPrims) (st : MarketState) (user : User)
      (listing_id : ℕ) (quantity : ℤ) (now : ℚ), quantity ≠ 0 →
      findFutureListing st.future_listings listing_id = none →
      execute_future_trade sim P st user listing_id quantity now =
        .error "Future listing not found.")
    ∧ (∀ (sim : MarketSimulator) (P : MathPrims) (st : MarketState) (user : User)
      (listing_id : ℕ) (quantity : ℤ) (now : ℚ) (listing : FutureListing),
      quantity ≠ 0 → findFutureListing st.future_listings listing_id = some listing →
      0 < futureMarginDelta sim P st user listing listing_id quantity now →
      user.balance < futureMarginDelta sim P st user listing listing_id quantity now →
      execute_future_trade sim P st user listing_id quantity now =
        .error "Insufficient balance for margin.") :=
  ⟨equity_trade_zero_qty,
   fun sim st user symbol quantity now hq hs =>
     equity_trade_no_security sim st user symbol quantity now hq hs,
   fun sim st user symbol quantity now security hq hs hb =>
     equity_trade_insufficient_balance sim st user symbol quantity now security hq hs hb,
   fun sim st user symbol quantity now security hq hs hh =>
     equity_trade_insufficient_shares sim st user symbol quantity now security hq hs hh,
   option_trade_zero_qty,
   fun sim P st user listing_id quantity now hq hl =>
     option_trade_no_listing sim P st user listing_id quantity now hq hl,
   fun sim P st user listing_id quantity now listing hq hl hb =>
     option_trade_insufficient_balance sim P st user listing_id quantity now listing hq hl hb,
   fun sim P st user listing_id quantity now listing hq hl hh =>
     option_trade_insufficient_contracts sim P st user listing_id quantity now listing
       hq hl hh,
   future_trade_zero_qty,
   fun sim P st user listing_id quantity now hq hl =>
     future_trade_no_listing sim P st user listing_id quantity now hq hl,
   fun sim P st user listing_id quantity now listing hq hl hmd hb =>
     future_trade_insufficient_margin sim P st user listing_id quantity now listing
       hq hl hmd hb⟩

/-- Number of stored option listings matching one exact key. -/
def countOptionListings (l : List OptionListing) (symbol : String) (k : OptionKey) : ℕ :=
  l.countP (optionKeyMatches symbol k)

/-- Number of stored future listings matching one exact key. -/
def countFutureListings (l : List FutureListing) (symbol : String) (delivery : ℚ) : ℕ :=
  l.countP (futureKeyMatches symbol delivery)

theorem optionListingExists_append (l1 l2 : List OptionListing) (symbol : String)
    (k : OptionKey) :
    optionListingExists (l1 ++ l2) symbol k =
      (optionListingExists l1 symbol k || optionListingExists l2 symbol k) :=
  List.any_append

theorem exists_ensureOptionStep_mono (symbol : String) (now : ℚ)
    (p : List OptionListing × ℕ) (k' k : OptionKey)
    (h : optionListingExists p.1 symbol k = true) :
    optionListingExists (ensureOptionStep symbol now p k').1 symbol k = true := by
  rcases p with ⟨l, n⟩
  unfold ensureOptionStep
  split
  · exact h
  · rw [optionListingExists_append, h, Bool.true_or]

theorem exists_optFold_mono (symbol : String) (now : ℚ) (keys : List OptionKey) :
    ∀ (p : List OptionListing × ℕ) (k : OptionKey),
      optionListingExists p.1 symbol k = true →
      optionListingExists (keys.foldl (ensureOptionStep symbol now) p).1 symbol k = true := by
  induction keys with
  | nil => intro p k h; exact h
  | cons k0 rest ih =>
    intro p k h
    exact ih _ k (exists_ensureOptionStep_mono symbol now p k0 k h)

theorem exists_ensureOptionStep_self (symbol : String) (now : ℚ)
    (p : List OptionListing × ℕ) (k : OptionKey) :
    optionListingExists (ensureOptionStep symbol now p k).1 symbol k = true := by
  rcases p with ⟨l, n⟩
  unfold ensureOptionStep
  split
  · next hex => exact hex
  · rw [optionListingExists_append]
    have hnew : optionListingExists [⟨n, symbol, k.option_type, k.strike, k.expiration, now⟩]
        symbol k = true := by
      simp [optionListingExists, optionKeyMatches]
    rw [hnew, Bool.or_true]

theorem exists_optFold_self (symbol : String) (now : ℚ) (keys : List OptionKey) :
    ∀ (p : List OptionListing × ℕ) (k : OptionKey), k ∈ keys →
      optionListingExists (keys.foldl (ensureOptionStep symbol now) p).1 symbol k = true := by
  induction keys with
  | nil => intro p k h; cases h
  | cons k0 rest ih =>
    intro p k h
    rcases List.mem_cons.mp h with rfl | h
    · exact exists_optFold_mono symbol now rest _ k
        (exists_ensureOptionStep_self symbol now p k)
    · exact ih _ k h

theorem optFold_noop (symbol : String) (now : ℚ) (keys : List OptionKey) :
    ∀ (p : List OptionListing × ℕ),
      (∀ k ∈ keys, optionListingExists p.1 symbol k = true) →
      keys.foldl (ensureOptionStep symbol now) p = p := by
  induction keys with
  | nil => intro p _; rfl
  | cons k0 rest ih =>
    intro p h
    have hstep : ensureOptionStep symbol now p k0 = p := by
      rcases p with ⟨l, n⟩
      unfold ensureOptionStep
      rw [if_pos (h k0 (List.mem_cons_self _ _))]
    rw [List.foldl_cons, hstep]
    exact ih p (fun k hk => h k (List.mem_cons_of_mem _ hk))

theorem countOption_ensureOptionStep (symbol : String) (now : ℚ)
    (p : List OptionListing × ℕ) (k' k : OptionKey) :
    countOptionListings (ensureOptionStep symbol now p k').1 symbol k ≤
      max (countOptionListings p.1 symbol k) 1 := by
  rcases p with ⟨l, n⟩
  unfold ensureOptionStep
  split
  · exact le_max_left _ _
  · next hex =>
    show countOptionListings
      (l ++ [⟨n, symbol, k'.option_type, k'.strike, k'.expiration, now⟩]) symbol k ≤ _
    unfold countOptionListings
    rw [List.countP_append]
    by_cases hm : optionKeyMatches symbol k
        ⟨n, symbol, k'.option_type, k'.strike, k'.expiration, now⟩ = true
    · have hk : k.option_type = k'.option_type ∧ k.strike = k'.strike ∧
          k.expiration = k'.expiration := by
        simp only [optionKeyMatches, decide_eq_true_eq] at hm
        exact ⟨hm.2.1.symm, hm.2.2.1.symm, hm.2.2.2.symm⟩
      have hpred : optionKeyMatches symbol k = optionKeyMatches symbol k' := by
        funext o
        simp only [optionKeyMatches, hk.1, hk.2.1, hk.2.2]
      have hzero : List.countP (optionKeyMatches symbol k) l = 0 := by
        rw [hpred]
        rw [List.countP_eq_zero]
        intro o ho hmo
        exact hex (List.any_eq_true.mpr ⟨o, ho, hmo⟩)
      rw [hzero]
      have hone : List.countP (optionKeyMatches symbol k)
          [⟨n, symbol, k'.option_type, k'.strike, k'.expiration, now⟩] ≤ 1 := by
        rw [List.countP_cons, List.countP_nil]
        split <;> norm_num
      simpa using hone
    · have hzero : List.countP (optionKeyMatches symbol k)
          [⟨n, symbol, k'.option_type, k'.strike, k'.expiration, now⟩] = 0 := by
        rw [List.countP_eq_zero]
        intro o ho
        rw [List.mem_singleton] at ho
        rw [ho]
        exact fun hc => hm hc
      rw [hzero, Nat.add_zero]
      exact le_max_left _ _

theorem countOption_optFold (symbol : String) (now : ℚ) (keys : List OptionKey) :
    ∀ (p : List OptionListing × ℕ) (k : OptionKey),
      countOptionListings (keys.foldl (ensureOptionStep symbol now) p).1 symbol k ≤
        max (countOptionListings p.1 symbol k) 1 := by
  induction keys with
  | nil => intro p k; exact le_max_left _ _
  | cons k0 rest ih =>
    intro p k
    calc countOptionListings
          (rest.foldl (ensureOptionStep symbol now) (ensureOptionStep symbol now p k0)).1
          symbol k
        ≤ max (countOptionListings (ensureOptionStep symbol now p k0).1 symbol k) 1 :=
          ih _ k
      _ ≤ max (max (countOptionListings p.1 symbol k) 1) 1 :=
          max_le_max (countOption_ensureOptionStep symbol now p k0 k) le_rfl
      _ = max (countOptionListings p.1 symbol k) 1 := by
          rw [max_assoc, max_self]

theorem futureListingExists_append (l1 l2 : List FutureListing) (symbol : String)
    (delivery : ℚ) :
    futureListingExists (l1 ++ l2) symbol delivery =
      (futureListingExists l1 symbol delivery || futureListingExists l2 symbol delivery) :=
  List.any_append

theorem exists_ensureFutureStep_mono (symbol : String) (now : ℚ)
    (p : List FutureListing × ℕ) (d' d : ℚ)
    (h : futureListingExists p.1 symbol d = true) :
    futureListingExists (ensureFutureStep symbol now p d').1 symbol d = true := by
  rcases p with ⟨l, n⟩
  unfold ensureFutureStep
  split
  · exact h
  · rw [futureListingExists_append, h, Bool.true_or]

theorem exists_futFold_mono (symbol : String) (now : ℚ) (keys : List ℚ) :
    ∀ (p : List FutureListing × ℕ) (d : ℚ),
      futureListingExists p.1 symbol d = true →
      futureListingExists (keys.foldl (ensureFutureStep symbol now) p).1 symbol d = true := by
  induction keys with
  | nil => intro p d h; exact h
  | cons d0 rest ih =>
    intro p d h
    exact ih _ d (exists_ensureFutureStep_mono symbol now p d0 d h)

theorem exists_ensureFutureStep_self (symbol : String) (now : ℚ)
    (p : List FutureListing × ℕ) (d : ℚ) :
    futureListingExists (ensureFutureStep symbol now p d).1 symbol d = true := by
  rcases p with ⟨l, n⟩
  unfold ensureFutureStep
  split
  · next hex => exact hex
  · rw [futureListingExists_append]
    have hnew : futureListingExists [⟨n, symbol, d, now⟩] symbol d = true := by
      simp [futureListingExists, futureKeyMatches]
    rw [hnew, Bool.or_true]

theorem exists_futFold_self (symbol : String) (now : ℚ) (keys : List ℚ) :
    ∀ (p : List FutureListing × ℕ) (d : ℚ), d ∈ keys →
      futureListingExists (keys.foldl (ensureFutureStep symbol now) p).1 symbol d = true := by
  induction keys with
  | nil => intro p d h; cases h
  | cons d0 rest ih =>
    intro p d h
    rcases List.mem_cons.mp h with rfl | h
    · exact exists_futFold_mono symbol now rest _ d
        (exists_ensureFutureStep_self symbol now p d)
    · exact ih _ d h

theorem futFold_noop (symbol : String) (now : ℚ) (keys : List ℚ) :
    ∀ (p : List FutureListing × ℕ),
      (∀ d ∈ keys, futureListingExists p.1 symbol d = true) →
      keys.foldl (ensureFutureStep symbol now) p = p := by
  induction keys with
  | nil => intro p _; rfl
  | cons d0 rest ih =>
    intro p h
    have hstep : ensureFutureStep symbol now p d0 = p := by
      rcases p with ⟨l, n⟩
      unfold ensureFutureStep
      rw [if_pos (h d0 (List.mem_cons_self _ _))]
    rw [List.foldl_cons, hstep]
    exact ih p (fun d hd => h d (List.mem_cons_of_mem _ hd))

theorem countFuture_ensureFutureStep (symbol : String) (now : ℚ)
    (p : List FutureListing × ℕ) (d' d : ℚ) :
    countFutureListings (ensureFutureStep symbol now p d').1 symbol d ≤
      max (countFutureListings p.1 symbol d) 1 := by
  rcases p with ⟨l, n⟩
  unfold ensureFutureStep
  split
  · exact le_max_left _ _
  · next hex =>
    show countFutureListings (l ++ [⟨n, symbol, d', now⟩]) symbol d ≤ _
    unfold countFutureListings
    rw [List.countP_append]
    by_cases hm : futureKeyMatches symbol d ⟨n, symbol, d', now⟩ = true
    · have hd : d = d' := by
        simp only [futureKeyMatches, decide_eq_true_eq] at hm
        exact hm.2.symm
      have hpred : futureKeyMatches symbol d = futureKeyMatches symbol d' := by
        funext f
        simp only [futureKeyMatches, hd]
      have hzero : List.countP (futureKeyMatches symbol d) l = 0 := by
        rw [hpred, List.countP_eq_zero]
        intro f hf hmf
        exact hex (List.any_eq_true.mpr ⟨f, hf, hmf⟩)
      rw [hzero]
      have hone : List.countP (futureKeyMatches symbol d) [⟨n, symbol, d', now⟩] ≤ 1 := by
        rw [List.countP_cons, List.countP_nil]
        split <;> norm_num
      simpa using hone
    · have hzero : List.countP (futureKeyMatches symbol d) [⟨n, symbol, d', now⟩] = 0 := by
        rw [List.countP_eq_zero]
        intro f hf
        rw [List.mem_singleton] at hf
        rw [hf]
        exact fun hc => hm hc
      rw [hzero, Nat.add_zero]
      exact le_max_left _ _

theorem countFuture_futFold (symbol : String) (now : ℚ) (keys : List ℚ) :
    ∀ (p : List FutureListing × ℕ) (d : ℚ),
      countFutureListings (keys.foldl (ensureFutureStep symbol now) p).1 symbol d ≤
        max (countFutureListings p.1 symbol d) 1 := by
  induction keys with
  | nil => intro p d; exact le_max_left _ _
  | cons d0 rest ih =>
    intro p d
    calc countFutureListings
          (rest.foldl (ensureFutureStep symbol now) (ensureFutureStep symbol now p d0)).1
          symbol d
        ≤ max (countFutureListings (ensureFutureStep symbol now p d0).1 symbol d) 1 :=
          ih _ d
      _ ≤ max (max (countFutureListings p.1 symbol d) 1) 1 :=
          max_le_max (countFuture_ensureFutureStep symbol now p d0 d) le_rfl
      _ = max (countFutureListings p.1 symbol d) 1 := by
          rw [max_assoc, max_self]

/-- **C9** (idempotent listing creation).  Running `_ensure_option_listings`
or `_ensure_future_listings` a second time with the same configuration, spot
and time changes nothing (the second call adds no listing and allocates no
id), and a store holding at most one listing per exact key keeps at most one
listing per key after a call. -/
theorem c9_idempotent_listings :
    (∀ (symbol : String) (config : SecurityConfig) (last_price now : ℚ)
      (l : List OptionListing) (n : ℕ),
      ensure_option_listings symbol config last_price now
        (ensure_option_listings symbol config last_price now l n).1
        (ensure_option_listings symbol config last_price now l n).2
      = ensure_option_listings symbol config last_price now l n)
    ∧ (∀ (symbol : String) (config : SecurityConfig) (now : ℚ)
      (l : List FutureListing) (n : ℕ),
      ensure_future_listings symbol config now
        (ensure_future_listings symbol config now l n).1
        (ensure_future_listings symbol config now l n).2
      = ensure_future_listings symbol config now l n)
    ∧ (∀ (symbol : String) (config : SecurityConfig) (last_price now : ℚ)
      (l : List OptionListing) (n : ℕ) (k : OptionKey),
      countOptionListings l symbol k ≤ 1 →
      countOptionListings (ensure_option_listings symbol config last_price now l n).1
        symbol k ≤ 1)
    ∧ (∀ (symbol : String) (config : SecurityConfig) (now : ℚ)
      (l : List FutureListing) (n : ℕ) (d : ℚ),
      countFutureListings l symbol d ≤ 1 →
      countFutureListings (ensure_future_listings symbol config now l n).1 symbol d ≤ 1) := by
  refine ⟨?_, ?_, ?_, ?_⟩
  · intro symbol config last_price now l n
    unfold ensure_option_listings
    apply optFold_noop
    intro k hk
    exact exists_optFold_self symbol now _ (l, n) k hk
  · intro symbol config now l n
    unfold ensure_future_listings
    apply futFold_noop
    intro d hd
    exact exists_futFold_self symbol now _ (l, n) d hd
  · intro symbol config last_price now l n k h
    refine le_trans (countOption_optFold symbol now _ (l, n) k) ?_
    exact max_le h le_rfl
  · intro symbol config now l n d h
    refine le_trans (countFuture_futFold symbol now _ (l, n) d) ?_
    exact max_le h le_rfl

theorem apply_order_impact_holdings (sim : MarketSimulator) (st : MarketState)
    (symbol : String) (q now : ℚ) :
    (sim.apply_order_impact st symbol q now).security_holdings = st.security_holdings ∧
    (sim.apply_order_impact st symbol q now).option_holdings = st.option_holdings ∧
    (sim.apply_order_impact st symbol q now).future_holdings = st.future_holdings := by
  unfold MarketSimulator.apply_order_impact
  split
  · exact ⟨rfl, rfl, rfl⟩
  · split
    · exact ⟨rfl, rfl, rfl⟩
    · split
      · exact ⟨rfl, rfl, rfl⟩
      · exact ⟨rfl, rfl, rfl⟩

theorem find?_map_replace {α : Type} (pr : α → Bool) (h : α) (hpr : pr h = true) :
    ∀ l : List α, l.any pr = true →
      (l.map (fun x => if pr x then h else x)).find? pr = some h := by
  intro l
  induction l with
  | nil => intro ha; simp at ha
  | cons a l ih =>
    intro ha
    simp only [List.map_cons]
    by_cases pa : pr a = true
    · rw [if_pos pa]
      exact List.find?_cons_of_pos _ hpr
    · rw [if_neg pa]
      have hskip : List.find? pr (a :: List.map (fun x => if pr x then h else x) l) =
          List.find? pr (List.map (fun x => if pr x then h else x) l) :=
        List.find?_cons_of_neg _ pa
      rw [hskip]
      have pa' : pr a = false := by revert pa; cases pr a <;> simp
      rw [List.any_cons, pa', Bool.false_or] at ha
      exact ih ha

theorem findSecurityHolding_upsert (l : List SecurityHolding) (h : SecurityHolding) :
    findSecurityHolding (upsertSecurityHolding l h) h.user_id h.security_symbol = some h := by
  have hpr : (decide (h.user_id = h.user_id ∧ h.security_symbol = h.security_symbol))
      = true := by simp
  unfold upsertSecurityHolding findSecurityHolding
  split
  · next hany =>
    exact find?_map_replace _ h hpr l hany
  · next hany =>
    rw [List.find?_append]
    have hnone : List.find?
        (fun x => decide (x.user_id = h.user_id ∧ x.security_symbol = h.security_symbol))
        l = none := by
      rw [List.find?_eq_none]
      intro x hx hax
      exact hany (List.any_eq_true.mpr ⟨x, hx, hax⟩)
    rw [hnone, Option.none_or]
    exact List.find?_cons_of_pos _ hpr

theorem findOptionHolding_upsert (l : List OptionHolding) (h : OptionHolding) :
    findOptionHolding (upsertOptionHolding l h) h.user_id h.listing_id = some h := by
  have hpr : (decide (h.user_id = h.user_id ∧ h.listing_id = h.listing_id)) = true := by simp
  unfold upsertOptionHolding findOptionHolding
  split
  · next hany =>
    exact find?_map_replace _ h hpr l hany
  · next hany =>
    rw [List.find?_append]
    have hnone : List.find?
        (fun x => decide (x.user_id = h.user_id ∧ x.listing_id = h.listing_id)) l = none := by
      rw [List.find?_eq_none]
      intro x hx hax
      exact hany (List.any_eq_true.mpr ⟨x, hx, hax⟩)
    rw [hnone, Option.none_or]
    exact List.find?_cons_of_pos _ hpr

theorem findFutureHolding_upsert (l : List FutureHolding) (h : FutureHolding) :
    findFutureHolding (upsertFutureHolding l h) h.user_id h.listing_id = some h := by
  have hpr : (decide (h.user_id = h.user_id ∧ h.listing_id = h.listing_id)) = true := by simp
  unfold upsertFutureHolding findFutureHolding
  split
  · next hany =>
    exact find?_map_replace _ h hpr l hany
  · next hany =>
    rw [List.find?_append]
    have hnone : List.find?
        (fun x => decide (x.user_id = h.user_id ∧ x.listing_id = h.listing_id)) l = none := by
      rw [List.find?_eq_none]
      intro x hx hax
      exact hany (List.any_eq_true.mpr ⟨x, hx, hax⟩)
    rw [hnone, Option.none_or]
    exact List.find?_cons_of_pos _ hpr

/-- The `(quantity, quantity × average_price)` pair of a user's equity holding
(`(0, 0)` when no row exists): the position size and the recorded total cost. -/
def equityHoldingView (l : List SecurityHolding) (uid : ℕ) (symbol : String) : ℚ × ℚ :=
  match findSecurityHolding l uid symbol with
  | none => (0, 0)
  | some h => (h.quantity, h.quantity * h.average_price)

/-- The analogous pair for an option holding. -/
def optionHoldingView (l : List OptionHolding) (uid listing_id : ℕ) : ℤ × ℚ :=
  match findOptionHolding l uid listing_id with
  | none => (0, 0)
  | some h => (h.quantity, (h.quantity : ℚ) * h.average_premium)

theorem equity_buy_step (sim : MarketSimulator) (st : MarketState) (user : User)
    (symbol : String) (q now : ℚ) (r : TradeResult) (st' : MarketState)
    (hq : 0 < q)
    (h0 : 0 ≤ (equityHoldingView st.security_holdings user.id symbol).1)
    (hok : execute_equity_trade sim st user symbol q now = .ok (r, st')) :
    0 ≤ r.notional ∧
    (equityHoldingView st'.security_holdings user.id symbol).1 =
      (equityHoldingView st.security_holdings user.id symbol).1 + q ∧
    (equityHoldingView st'.security_holdings user.id symbol).2 =
      (equityHoldingView st.security_holdings user.id symbol).2 + r.notional ∧
    (findSecurityHolding st'.security_holdings user.id symbol).isSome = true := by
  unfold execute_equity_trade at hok
  rw [if_neg hq.ne'] at hok
  cases hs : getSecurity st symbol with
  | none => rw [hs] at hok; cases hok
  | some security =>
    rw [hs] at hok
    dsimp only at hok
    rw [if_pos hq] at hok
    by_cases hb : user.balance < max MIN_PRICE security.last_price * |q|
    · rw [if_pos hb] at hok; cases hok
    · rw [if_neg hb] at hok
      dsimp only at hok
      have hnot : (0:ℚ) ≤ max MIN_PRICE security.last_price * |q| :=
        mul_nonneg (le_trans (by norm_num [MIN_PRICE]) (le_max_left _ _)) (abs_nonneg q)
      cases hh : findSecurityHolding st.security_holdings user.id symbol with
      | none =>
        rw [hh] at hok
        dsimp only [Option.getD] at hok
        rw [Except.ok.injEq, Prod.mk.injEq] at hok
        obtain ⟨hr, hst⟩ := hok
        subst hst
        have hview0 : equityHoldingView st.security_holdings user.id symbol = (0, 0) := by
          unfold equityHoldingView
          rw [hh]
        set hnew : SecurityHolding :=
          { user_id := user.id, security_symbol := symbol,
            quantity := (0:ℚ) + q,
            average_price := if (0:ℚ) + q ≠ 0 then
              ((0:ℚ) * 0 + max MIN_PRICE security.last_price * |q|) / ((0:ℚ) + q) else 0,
            updated_at := now } with hdefn
        have hfind : findSecurityHolding
            ((sim.apply_order_impact
              { st with security_holdings := upsertSecurityHolding st.security_holdings hnew }
              symbol (q / max security.liquidity 1) now)).security_holdings
            user.id symbol = some hnew := by
          rw [(apply_order_impact_holdings sim _ symbol (q / max security.liquidity 1) now).1]
          exact findSecurityHolding_upsert st.security_holdings hnew
        have hviewN : equityHoldingView
            ((sim.apply_order_impact
              { st with security_holdings := upsertSecurityHolding st.security_holdings hnew }
              symbol (q / max security.liquidity 1) now)).security_holdings
            user.id symbol = (hnew.quantity, hnew.quantity * hnew.average_price) := by
          unfold equityHoldingView
          rw [hfind]
        have hqz : (0:ℚ) + q ≠ 0 := by
          rw [zero_add]
          exact hq.ne'
        refine ⟨?_, ?_, ?_, ?_⟩
        · rw [← hr]
          exact hnot
        · rw [hviewN, hview0, hdefn]
        · rw [hviewN, hview0, ← hr, hdefn]
          dsimp only
          rw [if_pos hqz]
          rw [mul_comm ((0:ℚ) + q), div_mul_cancel₀ _ hqz]
          ring
        · rw [hfind]
          rfl
      | some hold =>
        rw [hh] at hok
        dsimp only [Option.getD] at hok
        rw [Except.ok.injEq, Prod.mk.injEq] at hok
        obtain ⟨hr, hst⟩ := hok
        subst hst
        have hkey : hold.user_id = user.id ∧ hold.security_symbol = symbol := by
          have := List.find?_some hh
          simpa using this
        have hview0 : equityHoldingView st.security_holdings user.id symbol =
            (hold.quantity, hold.quantity * hold.average_price) := by
          unfold equityHoldingView
          rw [hh]
        have hqnn : 0 ≤ hold.quantity := by
          rw [hview0] at h0
          exact h0
        have hqz : hold.quantity + q ≠ 0 := by positivity
        set hnew : SecurityHolding :=
          { hold with
            quantity := hold.quantity + q,
            average_price := if hold.quantity + q ≠ 0 then
              (hold.quantity * hold.average_price +
                max MIN_PRICE security.last_price * |q|) / (hold.quantity + q) else 0,
            updated_at := now } with hdefn
        have hfind : findSecurityHolding
            ((sim.apply_order_impact
              { st with security_holdings := upsertSecurityHolding st.security_holdings hnew }
              symbol (q / max security.liquidity 1) now)).security_holdings
            user.id symbol = some hnew := by
          rw [(apply_order_impact_holdings sim _ symbol (q / max security.liquidity 1) now).1,
            show user.id = hnew.user_id from hkey.1.symm,
            show symbol = hnew.security_symbol from hkey.2.symm]
          exact findSecurityHolding_upsert st.security_holdings hnew
        have hviewN : equityHoldingView
            ((sim.apply_order_impact
              { st with security_holdings := upsertSecurityHolding st.security_holdings hnew }
              symbol (q / max security.liquidity 1) now)).security_holdings
            user.id symbol = (hnew.quantity, hnew.quantity * hnew.average_price) := by
          unfold equityHoldingView
          rw [hfind]
        refine ⟨?_, ?_, ?_, ?_⟩
        · rw [← hr]
          exact hnot
        · rw [hviewN, hview0, hdefn]
        · rw [hviewN, hview0, ← hr, hdefn]
          dsimp only
          rw [if_pos hqz]
          rw [mul_comm (hold.quantity + q), div_mul_cancel₀ _ hqz]
        · rw [hfind]
          rfl

theorem option_buy_step (sim : MarketSimulator) (P : MathPrims) (st : MarketState)
    (user : User) (listing_id : ℕ) (q : ℤ) (now : ℚ) (r : TradeResult) (st' : MarketState)
    (hq : 0 < q)
    (h0 : 0 ≤ (optionHoldingView st.option_holdings user.id listing_id).1)
    (hok : execute_option_trade sim P st user listing_id q now = .ok (r, st')) :
    (0 ≤ r.price → 0 ≤ r.notional) ∧
    (optionHoldingView st'.option_holdings user.id listing_id).1 =
      (optionHoldingView st.option_holdings user.id listing_id).1 + q ∧
    (optionHoldingView st'.option_holdings user.id listing_id).2 =
      (optionHoldingView st.option_holdings user.id listing_id).2 + r.notional ∧
    (findOptionHolding st'.option_holdings user.id listing_id).isSome = true := by
  unfold execute_option_trade at hok
  rw [if_neg hq.ne'] at hok
  cases hl : findOptionListing st.option_listings listing_id with
  | none => rw [hl] at hok; cases hok
  | some listing =>
    rw [hl] at hok
    dsimp only at hok
    rw [if_pos hq] at hok
    by_cases hb : user.balance <
        sim.price_option P st listing now * ((|q| : ℤ) : ℚ)
    · rw [if_pos hb] at hok; cases hok
    · rw [if_neg hb] at hok
      dsimp only at hok
      cases hh : findOptionHolding st.option_holdings user.id listing_id with
      | none =>
        rw [hh] at hok
        dsimp only [Option.getD] at hok
        rw [Except.ok.injEq, Prod.mk.injEq] at hok
        obtain ⟨hr, hst⟩ := hok
        subst hst
        have hview0 : optionHoldingView st.option_holdings user.id listing_id = (0, 0) := by
          unfold optionHoldingView
          rw [hh]
        set hnew : OptionHolding :=
          { user_id := user.id, listing_id := listing_id,
            quantity := (0:ℤ) + q,
            average_premium := if (0:ℤ) + q ≠ 0 then
              (((0:ℤ) : ℚ) * 0 + sim.price_option P st listing now * ((|q| : ℤ) : ℚ))
                / (((0:ℤ) + q : ℤ) : ℚ) else 0,
            updated_at := now } with hdefn
        have hqz : (0:ℤ) + q ≠ 0 := by
          rw [zero_add]
          exact hq.ne'
        have hqzq : (((0:ℤ) + q : ℤ) : ℚ) ≠ 0 := Int.cast_ne_zero.mpr hqz
        have hfind : findOptionHolding
            ((sim.apply_order_impact
              { st with option_holdings := upsertOptionHolding st.option_holdings hnew }
              listing.security_symbol
              (((if listing.option_type = OptionType.call then (1:ℤ) else -1) * q : ℤ)
                * (5/100)) now)).option_holdings
            user.id listing_id = some hnew := by
          rw [(apply_order_impact_holdings sim _ listing.security_symbol _ now).2.1]
          exact findOptionHolding_upsert st.option_holdings hnew
        have hviewN : optionHoldingView
            ((sim.apply_order_impact
              { st with option_holdings := upsertOptionHolding st.option_holdings hnew }
              listing.security_symbol
              (((if listing.option_type = OptionType.call then (1:ℤ) else -1) * q : ℤ)
                * (5/100)) now)).option_holdings
            user.id listing_id = (hnew.quantity, (hnew.quantity : ℚ) * hnew.average_premium) := by
          unfold optionHoldingView
          rw [hfind]
        refine ⟨?_, ?_, ?_, ?_⟩
        · intro hp
          rw [← hr] at hp ⊢
          exact mul_nonneg hp (by positivity)
        · rw [hviewN, hview0, hdefn]
        · rw [hviewN, hview0, ← hr, hdefn]
          dsimp only
          rw [if_pos hqz]
          rw [mul_comm ((((0:ℤ) + q : ℤ) : ℚ)), div_mul_cancel₀ _ hqzq]
          ring
        · rw [hfind]
          rfl
      | some hold =>
        rw [hh] at hok
        dsimp only [Option.getD] at hok
        rw [Except.ok.injEq, Prod.mk.injEq] at hok
        obtain ⟨hr, hst⟩ := hok
        subst hst
        have hkey : hold.user_id = user.id ∧ hold.listing_id = listing_id := by
          have := List.find?_some hh
          simpa using this
        have hview0 : optionHoldingView st.option_holdings user.id listing_id =
            (hold.quantity, (hold.quantity : ℚ) * hold.average_premium) := by
          unfold optionHoldingView
          rw [hh]
        have hqnn : 0 ≤ hold.quantity := by
          rw [hview0] at h0
          exact h0
        have hqz : hold.quantity + q ≠ 0 := by positivity
        have hqzq : ((hold.quantity + q : ℤ) : ℚ) ≠ 0 := Int.cast_ne_zero.mpr hqz
        set hnew : OptionHolding :=
          { hold with
            quantity := hold.quantity + q,
            average_premium := if hold.quantity + q ≠ 0 then
              ((hold.quantity : ℚ) * hold.average_premium +
                sim.price_option P st listing now * ((|q| : ℤ) : ℚ))
                / ((hold.quantity + q : ℤ) : ℚ) else 0,
            updated_at := now } with hdefn
        have hfind : findOptionHolding
            ((sim.apply_order_impact
              { st with option_holdings := upsertOptionHolding st.option_holdings hnew }
              listing.security_symbol
              (((if listing.option_type = OptionType.call then (1:ℤ) else -1) * q : ℤ)
                * (5/100)) now)).option_holdings
            user.id listing_id = some hnew := by
          rw [(apply_order_impact_holdings sim _ listing.security_symbol _ now).2.1,
            show user.id = hnew.user_id from hkey.1.symm,
            show listing_id = hnew.listing_id from hkey.2.symm]
          exact findOptionHolding_upsert st.option_holdings hnew
        have hviewN : optionHoldingView
            ((sim.apply_order_impact
              { st with option_holdings := upsertOptionHolding st.option_holdings hnew }
              listing.security_symbol
              (((if listing.option_type = OptionType.call then (1:ℤ) else -1) * q : ℤ)
                * (5/100)) now)).option_holdings
            user.id listing_id = (hnew.quantity, (hnew.quantity : ℚ) * hnew.average_premium) := by
          unfold optionHoldingView
          rw [hfind]
        refine ⟨?_, ?_, ?_, ?_⟩
        · intro hp
          rw [← hr] at hp ⊢
          exact mul_nonneg hp (by positivity)
        · rw [hviewN, hview0, hdefn]
        · rw [hviewN, hview0, ← hr, hdefn]
          dsimp only
          rw [if_pos hqz]
          rw [mul_comm (((hold.quantity + q : ℤ) : ℚ)), div_mul_cancel₀ _ hqzq]
        · rw [hfind]
          rfl

theorem runEquityTrades_buys (sim : MarketSimulator) (user : User) (symbol : String)
    (now : ℚ) :
    ∀ (qs : List ℚ) (st st' : MarketState) (rs : List TradeResult),
      (∀ q ∈ qs, 0 < q) →
      0 ≤ (equityHoldingView st.security_holdings user.id symbol).1 →
      runEquityTrades sim user symbol now qs st = .ok (st', rs) →
      (equityHoldingView st'.security_holdings user.id symbol).1 =
        (equityHoldingView st.security_holdings user.id symbol).1 + qs.sum ∧
      (equityHoldingView st'.security_holdings user.id symbol).2 =
        (equityHoldingView st.security_holdings user.id symbol).2 +
          (rs.map TradeResult.notional).sum ∧
      (∀ r ∈ rs, 0 ≤ r.notional) ∧
      ((qs ≠ [] ∨ (findSecurityHolding st.security_holdings user.id symbol).isSome = true) →
        (findSecurityHolding st'.security_holdings user.id symbol).isSome = true) := by
  intro qs
  induction qs with
  | nil =>
    intro st st' rs hpos h0 hrun
    unfold runEquityTrades at hrun
    rw [Except.ok.injEq, Prod.mk.injEq] at hrun
    obtain ⟨hst, hrs⟩ := hrun
    subst hst
    subst hrs
    refine ⟨by simp, by simp, by simp, ?_⟩
    rintro (hne | hsome)
    · exact absurd rfl hne
    · exact hsome
  | cons q qs ih =>
    intro st st' rs hpos h0 hrun
    unfold runEquityTrades at hrun
    cases hstep : execute_equity_trade sim st user symbol q now with
    | error e => rw [hstep] at hrun; cases hrun
    | ok p =>
      rcases p with ⟨r, st1⟩
      rw [hstep] at hrun
      dsimp only at hrun
      cases hrest : runEquityTrades sim user symbol now qs st1 with
      | error e => rw [hrest] at hrun; cases hrun
      | ok p2 =>
        rcases p2 with ⟨st2, rs1⟩
        rw [hrest] at hrun
        dsimp only at hrun
        rw [Except.ok.injEq, Prod.mk.injEq] at hrun
        obtain ⟨hst2, hrs⟩ := hrun
        subst hst2
        subst hrs
        have hq : 0 < q := hpos q (List.mem_cons_self _ _)
        obtain ⟨hn0, hv1, hv2, hsome1⟩ :=
          equity_buy_step sim st user symbol q now r st1 hq h0 hstep
        have h01 : 0 ≤ (equityHoldingView st1.security_holdings user.id symbol).1 := by
          rw [hv1]
          exact add_nonneg h0 hq.le
        obtain ⟨ih1, ih2, ih3, ih4⟩ := ih st1 st2 rs1
          (fun x hx => hpos x (List.mem_cons_of_mem _ hx)) h01 hrest
        refine ⟨?_, ?_, ?_, ?_⟩
        · rw [ih1, hv1, List.sum_cons]
          ring
        · rw [ih2, hv2, List.map_cons, List.sum_cons]
          ring
        · intro r' hr'
          rcases List.mem_cons.mp hr' with rfl | hr'
          · exact hn0
          · exact ih3 r' hr'
        · intro _
          exact ih4 (Or.inr hsome1)

theorem runOptionTrades_buys (sim : MarketSimulator) (P : MathPrims) (user : User)
    (listing_id : ℕ) (now : ℚ) :
    ∀ (qs : List ℤ) (st st' : MarketState) (rs : List TradeResult),
      (∀ q ∈ qs, 0 < q) →
      0 ≤ (optionHoldingView st.option_holdings user.id listing_id).1 →
      runOptionTrades sim P user listing_id now qs st = .ok (st', rs) →
      (optionHoldingView st'.option_holdings user.id listing_id).1 =
        (optionHoldingView st.option_holdings user.id listing_id).1 + qs.sum ∧
      (optionHoldingView st'.option_holdings user.id listing_id).2 =
        (optionHoldingView st.option_holdings user.id listing_id).2 +
          (rs.map TradeResult.notional).sum ∧
      (∀ r ∈ rs, 0 ≤ r.price → 0 ≤ r.notional) ∧
      ((qs ≠ [] ∨ (findOptionHolding st.option_holdings user.id listing_id).isSome = true) →
        (findOptionHolding st'.option_holdings user.id listing_id).isSome = true) := by
  intro qs
  induction qs with
  | nil =>
    intro st st' rs hpos h0 hrun
    unfold runOptionTrades at hrun
    rw [Except.ok.injEq, Prod.mk.injEq] at hrun
    obtain ⟨hst, hrs⟩ := hrun
    subst hst
    subst hrs
    refine ⟨by simp, by simp, by simp, ?_⟩
    rintro (hne | hsome)
    · exact absurd rfl hne
    · exact hsome
  | cons q qs ih =>
    intro st st' rs hpos h0 hrun
    unfold runOptionTrades at hrun
    cases hstep : execute_option_trade sim P st user listing_id q now with
    | error e => rw [hstep] at hrun; cases hrun
    | ok p =>
      rcases p with ⟨r, st1⟩
      rw [hstep] at hrun
      dsimp only at hrun
      cases hrest : runOptionTrades sim P user listing_id now qs st1 with
      | error e => rw [hrest] at hrun; cases hrun
      | ok p2 =>
        rcases p2 with ⟨st2, rs1⟩
        rw [hrest] at hrun
        dsimp only at hrun
        rw [Except.ok.injEq, Prod.mk.injEq] at hrun
        obtain ⟨hst2, hrs⟩ := hrun
        subst hst2
        subst hrs
        have hq : 0 < q := hpos q (List.mem_cons_self _ _)
        obtain ⟨hn0, hv1, hv2, hsome1⟩ :=
          option_buy_step sim P st user listing_id q now r st1 hq h0 hstep
        have h01 : 0 ≤ (optionHoldingView st1.option_holdings user.id listing_id).1 := by
          rw [hv1]
          exact add_nonneg h0 hq.le
        obtain ⟨ih1, ih2, ih3, ih4⟩ := ih st1 st2 rs1
          (fun x hx => hpos x (List.mem_cons_of_mem _ hx)) h01 hrest
        refine ⟨?_, ?_, ?_, ?_⟩
        · rw [ih1, hv1, List.sum_cons]
          ring
        · rw [ih2, hv2, List.map_cons, List.sum_cons]
          ring
        · intro r' hr'
          rcases List.mem_cons.mp hr' with rfl | hr'
          · exact hn0
          · exact ih3 r' hr'
        · intro _
          exact ih4 (Or.inr hsome1)

theorem future_trade_sets_latest (sim : MarketSimulator) (P : MathPrims) (st : MarketState)
    (user : User) (listing_id : ℕ) (q : ℤ) (now : ℚ) (listing : FutureListing)
    (r : TradeResult) (st' : MarketState)
    (hl : findFutureListing st.future_listings listing_id = some listing)
    (hok : execute_future_trade sim P st user listing_id q now = .ok (r, st')) :
    r.price = sim.price_future P st listing now ∧
    ∃ h, findFutureHolding st'.future_holdings user.id listing_id = some h ∧
      h.entry_price = (if h.quantity = 0 then 0 else r.price) := by
  by_cases hq : q = 0
  · subst hq
    unfold execute_future_trade at hok
    rw [if_pos rfl] at hok
    cases hok
  · unfold execute_future_trade at hok
    rw [if_neg hq, hl] at hok
    dsimp only at hok
    split at hok
    · cases hok
    · rw [Except.ok.injEq, Prod.mk.injEq] at hok
      obtain ⟨hr, hst⟩ := hok
      subst hst
      refine ⟨by rw [← hr], ?_⟩
      cases hh : findFutureHolding st.future_holdings user.id listing_id with
      | none =>
        rw [hh] at hr
        dsimp only [Option.getD, Option.map] at hr ⊢
        set hnew : FutureHolding :=
          { user_id := user.id, listing_id := listing_id,
            quantity := (0:ℤ) + q,
            entry_price := if (0:ℤ) + q ≠ 0 then sim.price_future P st listing now else 0,
            updated_at := now } with hdefn
        refine ⟨hnew, ?_, ?_⟩
        · rw [(apply_order_impact_holdings sim _ listing.security_symbol _ now).2.2]
          exact findFutureHolding_upsert st.future_holdings hnew
        · rw [hdefn, ← hr]
          dsimp only
          by_cases hz : (0:ℤ) + q = 0
          · rw [if_neg (fun hne => hne hz), if_pos hz]
          · rw [if_pos hz, if_neg hz]
      | some hold =>
        rw [hh] at hr
        dsimp only [Option.getD, Option.map] at hr ⊢
        have hkey : hold.user_id = user.id ∧ hold.listing_id = listing_id := by
          have := List.find?_some hh
          simpa using this
        set hnew : FutureHolding :=
          { hold with
            quantity := hold.quantity + q,
            entry_price := if hold.quantity + q ≠ 0 then
              sim.price_future P st listing now else 0,
            updated_at := now } with hdefn
        refine ⟨hnew, ?_, ?_⟩
        · rw [(apply_order_impact_holdings sim _ listing.security_symbol _ now).2.2,
            show user.id = hnew.user_id from hkey.1.symm,
            show listing_id = hnew.listing_id from hkey.2.symm]
          exact findFutureHolding_upsert st.future_holdings hnew
        · rw [hdefn, ← hr]
          dsimp only
          by_cases hz : hold.quantity + q = 0
          · rw [if_neg (fun hne => hne hz), if_pos hz]
          · rw [if_pos hz, if_neg hz]

/-- **C8** (counterexample).  The claim says holdings of every instrument
type, futures included, record a volume-weighted average entry price.  Future
holdings do not: buying 1 contract at forward 100 (which moves the underlying
to 110 through the impact hook) and then 1 contract at forward 110 leaves
`entry_price = 110` — the latest forward — while the volume-weighted average
of the executed prices is (100 + 110)/2 = 105. -/
theorem c8_future_vwap_counterexample :
    (match runFutureTrades arcSim unitPrims richUser 1 0 [1, 1] arcState with
      | .ok (st', rs) => ((findFutureHolding st'.future_holdings richUser.id 1).map
          FutureHolding.entry_price, rs.map TradeResult.price)
      | .error _ => (none, [])) = (some 110, [100, 110])
    ∧ ((100:ℚ) * 1 + 110 * 1) / (1 + 1) = 105
    ∧ (110:ℚ) ≠ 105 := by
  refine ⟨?_, by norm_num, by norm_num⟩
  norm_num [runFutureTrades, execute_future_trade, MarketSimulator.apply_order_impact,
    MarketSimulator.price_future, getSecurity, findSecurity, getConfig, setSecurityPrice,
    updatePriceList, upsertFutureHolding, findFutureHolding, findFutureListing,
    arcSim, arcState, arcSecurity, arcConfig, arcFutureNow, MIN_PRICE, SECONDS_IN_YEAR,
    unitPrims, richUser]

/-- **C8** (amended).  After any sequence of buys (no sells) starting from no
position: an equity holding satisfies `average_price = total_cost /
total_quantity` with every trade's notional (cost increment) non-negative,
and an option holding satisfies `average_premium = total_premium_paid /
total_quantity` with each notional non-negative whenever the computed premium
is (as the real Black-Scholes premium always is).  Future holdings do not
maintain a volume-weighted average: every successful future trade overwrites
`entry_price` with the forward price of that very trade (0 when flat). -/
theorem c8_vwap_average_price :
    (∀ (sim : MarketSimulator) (user : User) (symbol : String) (now : ℚ)
      (qs : List ℚ) (st st' : MarketState) (rs : List TradeResult),
      (∀ q ∈ qs, 0 < q) →
      findSecurityHolding st.security_holdings user.id symbol = none →
      runEquityTrades sim user symbol now qs st = .ok (st', rs) →
      (∀ r ∈ rs, 0 ≤ r.notional) ∧
      (qs ≠ [] → ∃ h, findSecurityHolding st'.security_holdings user.id symbol = some h ∧
        h.quantity = qs.sum ∧
        h.quantity * h.average_price = (rs.map TradeResult.notional).sum ∧
        h.average_price = (rs.map TradeResult.notional).sum / qs.sum))
    ∧ (∀ (sim : MarketSimulator) (P : MathPrims) (user : User) (listing_id : ℕ) (now : ℚ)
      (qs : List ℤ) (st st' : MarketState) (rs : List TradeResult),
      (∀ q ∈ qs, 0 < q) →
      findOptionHolding st.option_holdings user.id listing_id = none →
      runOptionTrades sim P user listing_id now qs st = .ok (st', rs) →
      (∀ r ∈ rs, 0 ≤ r.price → 0 ≤ r.notional) ∧
      (qs ≠ [] → ∃ h, findOptionHolding st'.option_holdings user.id listing_id = some h ∧
        h.quantity = qs.sum ∧
        (h.quantity : ℚ) * h.average_premium = (rs.map TradeResult.notional).sum ∧
        h.average_premium = (rs.map TradeResult.notional).sum / ((qs.sum : ℤ) : ℚ)))
    ∧ (∀ (sim : MarketSimulator) (P : MathPrims) (st : MarketState) (user : User)
      (listing_id : ℕ) (q : ℤ) (now : ℚ) (listing : FutureListing) (r : TradeResult)
      (st' : MarketState),
      findFutureListing st.future_listings listing_id = some listing →
      execute_future_trade sim P st user listing_id q now = .ok (r, st') →
      r.price = sim.price_future P st listing now ∧
      ∃ h, findFutureHolding st'.future_holdings user.id listing_id = some h ∧
        h.entry_price = (if h.quantity = 0 then 0 else r.price)) := by
  refine ⟨?_, ?_, ?_⟩
  · intro sim user symbol now qs st st' rs hpos hnone hrun
    have hview0 : equityHoldingView st.security_holdings user.id symbol = (0, 0) := by
      unfold equityHoldingView
      rw [hnone]
    obtain ⟨hv1, hv2, hnn, hsome⟩ :=
      runEquityTrades_buys sim user symbol now qs st st' rs hpos
        (by rw [hview0]) hrun
    rw [hview0] at hv1 hv2
    refine ⟨hnn, ?_⟩
    intro hne
    obtain ⟨h, hfh⟩ := Option.isSome_iff_exists.mp (hsome (Or.inl hne))
    have hview' : equityHoldingView st'.security_holdings user.id symbol =
        (h.quantity, h.quantity * h.average_price) := by
      unfold equityHoldingView
      rw [hfh]
    rw [hview'] at hv1 hv2
    have hq : h.quantity = qs.sum := by simpa using hv1
    have hc : h.quantity * h.average_price = (rs.map TradeResult.notional).sum := by
      simpa using hv2
    have hsumpos : 0 < qs.sum := List.sum_pos qs hpos hne
    refine ⟨h, hfh, hq, hc, ?_⟩
    rw [eq_div_iff hsumpos.ne']
    rw [← hq, mul_comm]
    exact hc
  · intro sim P user listing_id now qs st st' rs hpos hnone hrun
    have hview0 : optionHoldingView st.option_holdings user.id listing_id = (0, 0) := by
      unfold optionHoldingView
      rw [hnone]
    obtain ⟨hv1, hv2, hnn, hsome⟩ :=
      runOptionTrades_buys sim P user listing_id now qs st st' rs hpos
        (by rw [hview0]) hrun
    rw [hview0] at hv1 hv2
    refine ⟨hnn, ?_⟩
    intro hne
    obtain ⟨h, hfh⟩ := Option.isSome_iff_exists.mp (hsome (Or.inl hne))
    have hview' : optionHoldingView st'.option_holdings user.id listing_id =
        (h.quantity, (h.quantity : ℚ) * h.average_premium) := by
      unfold optionHoldingView
      rw [hfh]
    rw [hview'] at hv1 hv2
    have hq : h.quantity = qs.sum := by simpa using hv1
    have hc : (h.quantity : ℚ) * h.average_premium = (rs.map TradeResult.notional).sum := by
      simpa using hv2
    have hsumpos : 0 < qs.sum := List.sum_pos qs hpos hne
    have hcast : ((qs.sum : ℤ) : ℚ) ≠ 0 := Int.cast_ne_zero.mpr hsumpos.ne'
    refine ⟨h, hfh, hq, hc, ?_⟩
    rw [eq_div_iff hcast]
    rw [mul_comm, ← hq]
    exact hc
  · intro sim P st user listing_id q now listing r st' hl hok
    exact future_trade_sets_latest sim P st user listing_id q now listing r st' hl hok

end Securities
